/-
Verification of the path-geometry engine of a small 2D vector-drawing
program (control-point data model, SVG-path codec, bounding box, nearest
segment search, curve subdivision, and an N-dimensional selection mask).

The source is TypeScript.  JavaScript `number` arithmetic is embedded as
exact rational arithmetic (`ℚ`); the two platform primitives that cannot
be expressed exactly over `ℚ` — `Math.sqrt` and the external bezier-js
projection routine `Bezier.project` — are passed in as explicit function
parameters wherever the source calls them, and concrete instantiations
are supplied when a statement is evaluated on concrete inputs.
-/
import Mathlib

namespace MicroCanvas

/-! ### Scalar and geometric primitives -/

/-- A 2D point, as the source's `Point2D` (`src/geom`). -/
structure Pt where
  x : ℚ
  y : ℚ
deriving DecidableEq

/-- Axis-aligned bounding box, as the source's `AABB` (`src/geom`). -/
structure AABB where
  x : ℚ
  y : ℚ
  width : ℚ
  height : ℚ
deriving DecidableEq

/-- A concrete stand-in for `Math.sqrt`, exact on rationals whose
numerator and denominator are perfect squares (all concrete inputs used
in this file are of that form).  General statements are parameterised
over an arbitrary square-root function instead of fixing this one. -/
def ratSqrt (q : ℚ) : ℚ :=
  (Nat.sqrt q.num.toNat : ℚ) / (Nat.sqrt q.den : ℚ)

/-! ### The selection mask: `MultiArray` (`src/multiArray.ts`)

The source stores a flat `data` array and a `dimensions` list.
`calculateIndex` walks the coordinates from the last dimension to the
first, bounds-checking each one and accumulating a row-major flat index;
the loop order does not affect which flat index (or which error) results,
so it is written here as structural recursion from the front with the
multiplier expressed as the product of the remaining dimensions. -/

structure MultiArray (T : Type) where
  data : List T
  dimensions : List ℕ
deriving DecidableEq

namespace MultiArray

/-- `new MultiArray(dimensions, initialValue)`: a flat buffer of
`dimensions.reduce((acc, dim) => acc * dim, 1)` copies of the initial
value. -/
def make (dims : List ℕ) (initialValue : T) : MultiArray T :=
  ⟨List.replicate dims.prod initialValue, dims⟩

/-- Coordinates are JavaScript numbers; integer coordinates are embedded
as `ℤ` so that the source's negativity check (`indices[i] < 0`) is
expressible. -/
def calcIndexAux : List ℤ → List ℕ → Except String ℕ
  | [], [] => .ok 0
  | i :: is, d :: ds =>
    if i < 0 ∨ (d : ℤ) ≤ i then .error "Index out of bounds"
    else
      match calcIndexAux is ds with
      | .ok rest => .ok (i.toNat * ds.prod + rest)
      | .error e => .error e
  | _, _ => .error "Invalid number of indices"

/-- `calculateIndex`: rank check, then per-coordinate bounds checks. -/
def calculateIndex (dims : List ℕ) (indices : List ℤ) : Except String ℕ :=
  if indices.length ≠ dims.length then .error "Invalid number of indices"
  else calcIndexAux indices dims

/-- `get(...indices)`.  The source reads `this.data[index]`; for every
array built through this API the computed index is within `data` (proved
below), so the out-of-range default of `getD` is never consulted. -/
def get [Inhabited T] (ma : MultiArray T) (indices : List ℤ) : Except String T :=
  (calculateIndex ma.dimensions indices).map fun index => ma.data.getD index default

/-- `set(value, ...indices)`. -/
def set (ma : MultiArray T) (value : T) (indices : List ℤ) :
    Except String (MultiArray T) :=
  (calculateIndex ma.dimensions indices).map fun index =>
    { ma with data := ma.data.set index value }

/-- The data buffer of every array built by `make` and `set` has exactly
`dimensions.prod` cells. -/
def WF (ma : MultiArray T) : Prop :=
  ma.data.length = ma.dimensions.prod

/-- Coordinate tuple validity: right rank, every coordinate inside
`[0, dimSize)`. -/
def inBounds (dims : List ℕ) (indices : List ℤ) : Prop :=
  List.Forall₂ (fun (i : ℤ) (d : ℕ) => 0 ≤ i ∧ i < (d : ℤ)) indices dims

instance (dims : List ℕ) (indices : List ℤ) : Decidable (inBounds dims indices) :=
  inferInstanceAs (Decidable (List.Forall₂ _ _ _))

end MultiArray

/-! ### The control-point data model (`src/objects/bezier.ts`)

`BezierControlPoint` is the source's tagged union.  It is parameterised
by the scalar type: the geometry operations use exact rationals (`ℚ`),
while the SVG-path parser produces coordinates in `Option ℚ`, where
`none` stands for JavaScript's non-finite results (`NaN` from `Number`
conversions of malformed tokens, and `undefined` argument reads). -/

inductive BezierControlPoint (α : Type) where
  | moveTo (x y : α)
  | lineTo (x y : α)
  | quadraticCurveTo (x y controlX controlY : α)
  | cubicCurveTo (x y controlX1 controlY1 controlX2 controlY2 : α)
  | closePath
deriving DecidableEq

/-- The `(x, y)` anchor of a control point: every variant except
`closePath` carries one (`point.x` / `point.y` in the source). -/
def anchorOf : BezierControlPoint ℚ → Option Pt
  | .moveTo x y => some ⟨x, y⟩
  | .lineTo x y => some ⟨x, y⟩
  | .quadraticCurveTo x y _ _ => some ⟨x, y⟩
  | .cubicCurveTo x y _ _ _ _ => some ⟨x, y⟩
  | .closePath => none

/-- The source's `!prev || prev.type === "closePath"` rejection is
exactly the case where the predecessor supplies no anchor. -/
def prevAnchor (prev : Option (BezierControlPoint ℚ)) : Option Pt :=
  prev.bind anchorOf

/-- `BezierNearestSegment`: `{ index, t }`.  The index is a JavaScript
number; it is embedded as `ℤ` so the source's `index < 0` check is
expressible. -/
structure BezierNearestSegment where
  index : ℤ
  t : ℚ
deriving DecidableEq

/-- JavaScript array indexing `list[i]` (negative or past-the-end reads
give `undefined`). -/
def getZ {α : Type _} (l : List α) (i : ℤ) : Option α :=
  if 0 ≤ i then l.get? i.toNat else none

/-! ### Model of the external bezier-js cubic-curve routines

The source delegates curve evaluation (`Bezier.get`), de Casteljau
subdivision (`Bezier.split`), and derivative-root extraction for
bounding boxes (`Bezier.bbox`) to the bezier-js library.  Those
routines are standard closed-form algorithms and are transcribed here
over `ℚ`; the one numerical routine with no closed form,
`Bezier.project`, stays an explicit function parameter. -/

/-- A cubic Bezier curve as its four control points (`new Bezier([x1,
y1, cx1, cy1, cx2, cy2, x2, y2])`). -/
structure CubicBezier where
  p0 : Pt
  p1 : Pt
  p2 : Pt
  p3 : Pt
deriving DecidableEq

/-- bezier-js `utils.lerp(r, v1, v2)`. -/
def lerp (r : ℚ) (v1 v2 : Pt) : Pt :=
  ⟨v1.x + r * (v2.x - v1.x), v1.y + r * (v2.y - v1.y)⟩

/-- One coordinate of bezier-js `compute(t, points)` for a cubic: the
degree-3 Bernstein polynomial (the `t = 0` / `t = 1` shortcuts in the
library return the same value). -/
def bernstein3 (p0 p1 p2 p3 t : ℚ) : ℚ :=
  (1 - t) ^ 3 * p0 + 3 * (1 - t) ^ 2 * t * p1 + 3 * (1 - t) * t ^ 2 * p2 + t ^ 3 * p3

/-- bezier-js `Bezier.get(t)` on a cubic. -/
def cubicPoint (b : CubicBezier) (t : ℚ) : Pt :=
  ⟨bernstein3 b.p0.x b.p1.x b.p2.x b.p3.x t, bernstein3 b.p0.y b.p1.y b.p2.y b.p3.y t⟩

structure SplitPair where
  left : CubicBezier
  right : CubicBezier
deriving DecidableEq

/-- bezier-js `Bezier.split(t)` on a cubic, via the de Casteljau hull
`q0..q9`: `left = [q0, q4, q7, q9]`, `right = [q9, q8, q6, q3]`. -/
def cubicSplit (b : CubicBezier) (t : ℚ) : SplitPair :=
  let q4 := lerp t b.p0 b.p1
  let q5 := lerp t b.p1 b.p2
  let q6 := lerp t b.p2 b.p3
  let q7 := lerp t q4 q5
  let q8 := lerp t q5 q6
  let q9 := lerp t q7 q8
  ⟨⟨b.p0, q4, q7, q9⟩, ⟨q9, q8, q6, b.p3⟩⟩

/-- The source's `quadraticToCubic(x1, y1, cx, cy, x2, y2)`: exact
degree elevation. -/
def quadraticToCubic (x1 y1 cx cy x2 y2 : ℚ) : CubicBezier :=
  ⟨⟨x1, y1⟩,
   ⟨x1 + 2/3 * (cx - x1), y1 + 2/3 * (cy - y1)⟩,
   ⟨x2 + 2/3 * (cx - x2), y2 + 2/3 * (cy - y2)⟩,
   ⟨x2, y2⟩⟩

/-- Result of bezier-js `Bezier.project(point)`: the parameter of the
(approximately) closest on-curve point and its distance.  The library
always reports a parameter and a distance, so the source's
`projection.t !== undefined` guards always pass. -/
structure Projection where
  t : ℚ
  d : ℚ
deriving DecidableEq

/-- bezier-js `utils.droots` on a quadratic `[a, b, c]`.  For a negative
radicand JavaScript's `sqrt` yields `NaN`, both candidate roots are
`NaN`, and the caller's `0 ≤ t ≤ 1` filter drops them — modelled by
returning no roots, so the square-root parameter is only ever applied
to nonnegative radicands. -/
def droots3 (sqrtFn : ℚ → ℚ) (a b c : ℚ) : List ℚ :=
  let d := a - 2 * b + c
  if d ≠ 0 then
    if b * b - a * c < 0 then []
    else
      let m1 := -(sqrtFn (b * b - a * c))
      let m2 := -a + b
      [-(m1 + m2) / d, -(-m1 + m2) / d]
  else if b ≠ c then [(2 * b - c) / (2 * (b - c))]
  else []

/-- bezier-js `utils.droots` on a linear `[a, b]`. -/
def droots2 (a b : ℚ) : List ℚ :=
  if a ≠ b then [a / (a - b)] else []

/-- bezier-js `extrema()` for one coordinate of a cubic: roots of the
first and second derivative, filtered to `[0, 1]`. -/
def cubicExtrema (sqrtFn : ℚ → ℚ) (p0 p1 p2 p3 : ℚ) : List ℚ :=
  let q0 := 3 * (p1 - p0)
  let q1 := 3 * (p2 - p1)
  let q2 := 3 * (p3 - p2)
  (droots3 sqrtFn q0 q1 q2 ++ droots2 (2 * (q1 - q0)) (2 * (q2 - q1))).filter
    fun t => decide (0 ≤ t ∧ t ≤ 1)

/-- bezier-js `utils.getminmax(curve, d, list)`: force `0` and `1` into
the candidate list, then take the min/max of the curve evaluated there.
The candidate list always contains `0`, so the empty case below is
unreachable. -/
def minmaxOf : List ℚ → ℚ × ℚ
  | [] => (0, 0)
  | v :: vs => (vs.foldl min v, vs.foldl max v)

def getminmax (f : ℚ → ℚ) (ts : List ℚ) : ℚ × ℚ :=
  let l1 := if 0 ∈ ts then ts else 0 :: ts
  let l2 := if 1 ∈ l1 then l1 else l1 ++ [1]
  minmaxOf (l2.map f)

/-! ### The path model: `PathLayer` state and operations

Only the fields the geometric operations touch are modelled
(`translation`, `_controlPoints`, `_boundingBox`); the style attributes
(`fill`, `stroke`, `strokeWidth`) and `id` never interact with the
claims under verification. -/

structure PathLayer where
  translation : Pt
  controlPoints : List (BezierControlPoint ℚ)
  boundingBoxCache : Option AABB
deriving DecidableEq

/-- The `controlPoints` setter: replaces the sequence and clears the
cached box. -/
def setControlPoints (layer : PathLayer) (value : List (BezierControlPoint ℚ)) : PathLayer :=
  { layer with controlPoints := value, boundingBoxCache := none }

/-- Running min/max accumulator of `calcBoundingBox`.  The source
initialises the four bounds to `±Infinity`; `none` models the state in
which no coordinate has been folded in yet. -/
structure BBAcc where
  minX : ℚ
  minY : ℚ
  maxX : ℚ
  maxY : ℚ
deriving DecidableEq

/-- The source's `addBB(x, y, width, height)` closure. -/
def addBB (acc : Option BBAcc) (x y width height : ℚ) : Option BBAcc :=
  match acc with
  | none => some ⟨x, y, x + width, y + height⟩
  | some bb => some ⟨min bb.minX x, min bb.minY y, max bb.maxX (x + width), max bb.maxY (y + height)⟩

/-- Fold one curve's bezier-js `bbox()` into the accumulator:
`addBB(bbox.x.min, bbox.y.min, bbox.x.size, bbox.y.size)`. -/
def bboxAddCurve (sqrtFn : ℚ → ℚ) (acc : Option BBAcc) (bz : CubicBezier) : Option BBAcc :=
  let ex := getminmax (fun t => bernstein3 bz.p0.x bz.p1.x bz.p2.x bz.p3.x t)
    (cubicExtrema sqrtFn bz.p0.x bz.p1.x bz.p2.x bz.p3.x)
  let ey := getminmax (fun t => bernstein3 bz.p0.y bz.p1.y bz.p2.y bz.p3.y t)
    (cubicExtrema sqrtFn bz.p0.y bz.p1.y bz.p2.y bz.p3.y)
  addBB acc ex.1 ey.1 (ex.2 - ex.1) (ey.2 - ey.1)

/-- One iteration of the `calcBoundingBox` loop.  NOTE a faithfully kept
quirk of the source: the loop assigns `prevX = point.x; prevY = point.y`
for every non-`closePath` point *before* dispatching on the point's
type, so when a `quadraticCurveTo`/`cubicCurveTo` point is processed the
"previous" anchor it reads is the point's own anchor `(x, y)` — the true
predecessor anchor is already overwritten, and the `prevX === undefined`
error branch is unreachable for curve points. -/
def bboxStep (sqrtFn : ℚ → ℚ) (acc : Option BBAcc) : BezierControlPoint ℚ → Option BBAcc
  | .moveTo x y => addBB acc x y 0 0
  | .lineTo x y => addBB acc x y 0 0
  | .quadraticCurveTo x y cx cy => bboxAddCurve sqrtFn acc (quadraticToCubic x y cx cy x y)
  | .cubicCurveTo x y cx1 cy1 cx2 cy2 =>
    bboxAddCurve sqrtFn acc ⟨⟨x, y⟩, ⟨cx1, cy1⟩, ⟨cx2, cy2⟩, ⟨x, y⟩⟩
  | .closePath => acc

/-- The source's `calcBoundingBox(controlPoints)`.  When no point
contributes any coordinate the source returns a box of infinities,
unrepresentable over `ℚ` and never consulted by any claim; a zero box
stands in for it. -/
def calcBoundingBox (sqrtFn : ℚ → ℚ) (controlPoints : List (BezierControlPoint ℚ)) : AABB :=
  match controlPoints.foldl (bboxStep sqrtFn) none with
  | some bb => ⟨bb.minX, bb.minY, bb.maxX - bb.minX, bb.maxY - bb.minY⟩
  | none => ⟨0, 0, 0, 0⟩

/-- The `boundingBox` getter: fill the cache if empty, then return the
cached model-space box shifted by the translation.  Returns the box
together with the post-read state (the getter writes the cache). -/
def boundingBoxRead (sqrtFn : ℚ → ℚ) (layer : PathLayer) : AABB × PathLayer :=
  let bb := match layer.boundingBoxCache with
    | some bb => bb
    | none => calcBoundingBox sqrtFn layer.controlPoints
  (⟨bb.x + layer.translation.x, bb.y + layer.translation.y, bb.width, bb.height⟩,
   { layer with boundingBoxCache := some bb })

/-- `pointForNearestSegment(segment)`: evaluate segment `index` at
parameter `t`, in model space (no translation is applied). -/
def pointForNearestSegment (layer : PathLayer) (seg : BezierNearestSegment) : Except String Pt :=
  if seg.index < 0 ∨ (layer.controlPoints.length : ℤ) ≤ seg.index then
    .error "Invalid segment index"
  else
    let prev := getZ layer.controlPoints (seg.index - 1)
    match getZ layer.controlPoints seg.index with
    | none => .error "Invalid segment index"
    | some cur =>
      match cur with
      | .lineTo x2 y2 =>
        match prevAnchor prev with
        | none => .error "Invalid control points"
        | some a => .ok ⟨a.x + seg.t * (x2 - a.x), a.y + seg.t * (y2 - a.y)⟩
      | .quadraticCurveTo x2 y2 cx cy =>
        match prevAnchor prev with
        | none => .error "Invalid control points"
        | some a => .ok (cubicPoint (quadraticToCubic a.x a.y cx cy x2 y2) seg.t)
      | .cubicCurveTo x2 y2 cx1 cy1 cx2 cy2 =>
        match prevAnchor prev with
        | none => .error "Invalid control points"
        | some a => .ok (cubicPoint ⟨a, ⟨cx1, cy1⟩, ⟨cx2, cy2⟩, ⟨x2, y2⟩⟩ seg.t)
      | .moveTo _ _ => .error "Invalid control points"
      | .closePath => .error "Invalid control points"

/-- `Array.prototype.splice(i, 0, a)`. -/
def spliceInsert {α : Type _} (l : List α) (i : ℕ) (a : α) : List α :=
  l.take i ++ a :: l.drop i

/-- `Array.prototype.splice(i, 1, a, b)`. -/
def spliceReplace2 {α : Type _} (l : List α) (i : ℕ) (a b : α) : List α :=
  l.take i ++ a :: b :: l.drop (i + 1)

/-- `addNearestSegment(nearest)`: split the targeted segment at `t`.
The result pairs the thrown-or-ok outcome with the state as of the end
of the call (at a throw the splice has not yet happened, so the state is
the original one). -/
def addNearestSegment (layer : PathLayer) (nearest : BezierNearestSegment) :
    Except String Unit × PathLayer :=
  if nearest.index < 0 ∨ (layer.controlPoints.length : ℤ) ≤ nearest.index then
    (.error "Invalid segment index", layer)
  else
    let prev := getZ layer.controlPoints (nearest.index - 1)
    match getZ layer.controlPoints nearest.index with
    | none => (.error "Invalid segment index", layer)
    | some cur =>
      match cur with
      | .lineTo _ _ =>
        match prevAnchor prev with
        | none => (.error "Invalid control points", layer)
        | some _ =>
          match pointForNearestSegment layer nearest with
          | .error e => (.error e, layer)
          | .ok newPoint =>
            let pts := spliceInsert layer.controlPoints nearest.index.toNat
              (.lineTo newPoint.x newPoint.y)
            (.ok (), { layer with controlPoints := pts })
      | .quadraticCurveTo x2 y2 cx cy =>
        match prevAnchor prev with
        | none => (.error "Invalid control points", layer)
        | some a =>
          let curve := quadraticToCubic a.x a.y cx cy x2 y2
          let split := cubicSplit curve nearest.t
          let leftCurve := split.left
          let rightCurve := split.right
          let pts := spliceReplace2 layer.controlPoints nearest.index.toNat
            (.cubicCurveTo leftCurve.p3.x leftCurve.p3.y leftCurve.p1.x leftCurve.p1.y
              leftCurve.p2.x leftCurve.p2.y)
            (.cubicCurveTo x2 y2 rightCurve.p1.x rightCurve.p1.y
              rightCurve.p2.x rightCurve.p2.y)
          (.ok (), { layer with controlPoints := pts })
      | .cubicCurveTo x2 y2 cx1 cy1 cx2 cy2 =>
        match prevAnchor prev with
        | none => (.error "Invalid control points", layer)
        | some a =>
          let curve : CubicBezier := ⟨a, ⟨cx1, cy1⟩, ⟨cx2, cy2⟩, ⟨x2, y2⟩⟩
          let split := cubicSplit curve nearest.t
          let leftCurve := split.left
          let rightCurve := split.right
          let pts := spliceReplace2 layer.controlPoints nearest.index.toNat
            (.cubicCurveTo leftCurve.p3.x leftCurve.p3.y leftCurve.p1.x leftCurve.p1.y
              leftCurve.p2.x leftCurve.p2.y)
            (.cubicCurveTo x2 y2 rightCurve.p1.x rightCurve.p1.y
              rightCurve.p2.x rightCurve.p2.y)
          (.ok (), { layer with controlPoints := pts })
      | .moveTo _ _ => (.error "Invalid control point type", layer)
      | .closePath => (.error "Invalid control point type", layer)

/-- Per-segment candidate of the `closestSegment` loop: `none` when the
segment is skipped (`moveTo`/`closePath` current, or no usable
predecessor, or a degenerate zero-length line, whose `0/0 = NaN`
parameter makes every JavaScript comparison false); otherwise the pair
`(distance, t)` the loop would consider.  For a line the stored `t` is
the *unclamped* scalar projection — the source clamps only the point
used for the distance. -/
def segmentCandidate (sqrtFn : ℚ → ℚ) (proj : CubicBezier → Pt → Projection)
    (px py : ℚ) (prev : Option (BezierControlPoint ℚ)) :
    BezierControlPoint ℚ → Option (ℚ × ℚ)
  | .moveTo _ _ => none
  | .closePath => none
  | cur =>
    match prevAnchor prev with
    | none => none
    | some a =>
      match cur with
      | .lineTo x2 y2 =>
        let dx := x2 - a.x
        let dy := y2 - a.y
        let length := sqrtFn (dx * dx + dy * dy)
        if length * length = 0 then none
        else
          let t := ((px - a.x) * dx + (py - a.y) * dy) / (length * length)
          let c : Pt :=
            if t < 0 then a
            else if 1 < t then ⟨x2, y2⟩
            else ⟨a.x + t * dx, a.y + t * dy⟩
          some (sqrtFn ((px - c.x) * (px - c.x) + (py - c.y) * (py - c.y)), t)
      | .quadraticCurveTo x2 y2 cx cy =>
        let pr := proj (quadraticToCubic a.x a.y cx cy x2 y2) ⟨px, py⟩
        some (pr.d, pr.t)
      | .cubicCurveTo x2 y2 cx1 cy1 cx2 cy2 =>
        let pr := proj ⟨a, ⟨cx1, cy1⟩, ⟨cx2, cy2⟩, ⟨x2, y2⟩⟩ ⟨px, py⟩
        some (pr.d, pr.t)
      | _ => none

/-- The `closestSegment` loop over the `segments()` enumeration,
carrying the previous point, the running index and the running best
`(minDist, min)`.  `minDist` starts at `Infinity`: with no best yet the
`distance < minDist` test is vacuous. -/
def closestLoop (threshold : ℚ) (cand : Option (BezierControlPoint ℚ) →
      BezierControlPoint ℚ → Option (ℚ × ℚ)) :
    List (BezierControlPoint ℚ) → Option (BezierControlPoint ℚ) → ℕ →
    Option (ℚ × BezierNearestSegment) → Option (ℚ × BezierNearestSegment)
  | [], _, _, best => best
  | cur :: rest, prev, i, best =>
    let best' :=
      match cand prev cur with
      | none => best
      | some (d, t) =>
        match best with
        | none => if d ≤ threshold then some (d, ⟨(i : ℤ), t⟩) else none
        | some (m, r) => if d ≤ threshold ∧ d < m then some (d, ⟨(i : ℤ), t⟩) else some (m, r)
    closestLoop threshold cand rest (some cur) (i + 1) best'

/-- `closestSegment(point, threshold)`: translate the query into model
space, scan all segments, return the best `{ index, t }` (without its
distance) or `undefined`. -/
def closestSegment (sqrtFn : ℚ → ℚ) (proj : CubicBezier → Pt → Projection)
    (layer : PathLayer) (point : Pt) (threshold : ℚ) : Option BezierNearestSegment :=
  let px := point.x - layer.translation.x
  let py := point.y - layer.translation.y
  (closestLoop threshold (segmentCandidate sqrtFn proj px py)
    layer.controlPoints none 0 none).map (·.2)


/-- The candidate the `closestSegment` loop sees for list index `j`:
the element at `j` combined with its predecessor (absent for `j = 0`). -/
def candidateAt (cand2 : Option (BezierControlPoint ℚ) → BezierControlPoint ℚ → Option (ℚ × ℚ))
    (pts : List (BezierControlPoint ℚ)) (j : ℕ) : Option (ℚ × ℚ) :=
  (pts.get? j).bind (cand2 (getZ pts ((j : ℤ) - 1)))

/-- Invariant of the `closestSegment` scan after the first `n` list
indices have been processed: an empty best means no candidate within
the threshold so far; a best `(m, r)` is a within-threshold candidate
whose distance is minimal among the processed candidates, strictly
smaller than every within-threshold candidate at an earlier index. -/
def loopInv (threshold : ℚ)
    (cand2 : Option (BezierControlPoint ℚ) → BezierControlPoint ℚ → Option (ℚ × ℚ))
    (pts : List (BezierControlPoint ℚ)) (n : ℕ)
    (best : Option (ℚ × BezierNearestSegment)) : Prop :=
  (best = none → ∀ j, j < n → ∀ d t, candidateAt cand2 pts j = some (d, t) →
    ¬(d ≤ threshold)) ∧
  (∀ m r, best = some (m, r) → ∃ k : ℕ, k < n ∧ r.index = (k : ℤ) ∧
    candidateAt cand2 pts k = some (m, r.t) ∧ m ≤ threshold ∧
    (∀ j, j < n → ∀ d t, candidateAt cand2 pts j = some (d, t) → d ≤ threshold → m ≤ d) ∧
    (∀ j, j < k → ∀ d t, candidateAt cand2 pts j = some (d, t) → d ≤ threshold → m < d))


/-! ### The SVG path codec (`toSVGPath` / `parseCommands`)

Strings are modelled as `List Char`.  The two JavaScript number/string
primitives are function parameters: `fmt` models number-to-string
interpolation (lossless for finite doubles outside the exponent-notation
range) and `parseNum` models `Number(string)`, returning `none` for a
`NaN` result.  `Option ℚ` coordinates propagate `NaN`/`undefined`
through parsed control points. -/

/-- The regex class `[a-zA-Z]`. -/
def isAlphaChar (c : Char) : Bool :=
  decide (('a' ≤ c ∧ c ≤ 'z') ∨ ('A' ≤ c ∧ c ≤ 'Z'))

/-- JavaScript `\s` restricted to the ASCII whitespace actually
reachable here (the serializer and the tests only ever produce plain
spaces). -/
def isWSChar (c : Char) : Bool :=
  decide (c = ' ' ∨ c = '\t' ∨ c = '\n' ∨ c = '\r')

/-- The regex class `[\s,]`. -/
def isSepChar (c : Char) : Bool :=
  isWSChar c || decide (c = ',')

/-- `d.match(/[a-zA-Z][^a-zA-Z]*/g)`: characters before the first
letter are skipped; each match is a letter followed by the maximal run
of non-letters. -/
def chunks (l : List Char) : List (List Char) :=
  match l with
  | [] => []
  | c :: rest =>
    if isAlphaChar c then
      (c :: rest.takeWhile (fun x => !isAlphaChar x)) ::
        chunks (rest.dropWhile (fun x => !isAlphaChar x))
    else chunks rest
termination_by l.length
decreasing_by
  · simp only [List.length_cons]
    have := (List.dropWhile_sublist (l := rest) (fun x => !isAlphaChar x)).length_le
    omega
  · simp only [List.length_cons]
    omega

/-- `s.split(/[\s,]+/)` (JavaScript semantics: maximal separator runs
split the string; leading or trailing runs contribute empty pieces).
`cur` is the current piece reversed; the flag records whether the
previous character belonged to a separator run. -/
def splitSepGo : List Char → Bool → List Char → List (List Char)
  | cur, _, [] => [cur.reverse]
  | cur, afterSep, c :: rest =>
    if isSepChar c then
      if afterSep then splitSepGo cur true rest
      else cur.reverse :: splitSepGo [] true rest
    else splitSepGo (c :: cur) false rest

def splitSep (l : List Char) : List (List Char) :=
  splitSepGo [] false l

/-- JavaScript `String.prototype.trim` (ASCII whitespace). -/
def jsTrim (l : List Char) : List Char :=
  ((l.dropWhile isWSChar).reverse.dropWhile isWSChar).reverse

/-- JavaScript `+` lifted to `NaN`-propagating operands. -/
def jadd (a b : Option ℚ) : Option ℚ := Option.map₂ (· + ·) a b

def jsub (a b : Option ℚ) : Option ℚ := Option.map₂ (· - ·) a b

def jmul (a b : Option ℚ) : Option ℚ := Option.map₂ (· * ·) a b

/-- The `parseCommands` loop state: the running current point and the
control points pushed so far. -/
structure ParseState where
  currentX : Option ℚ
  currentY : Option ℚ
  controlPoints : List (BezierControlPoint (Option ℚ))
deriving DecidableEq

/-- One iteration of the `parseCommands` loop on one matched command
chunk.  `args[i]` reads beyond the parsed argument list yield
JavaScript `undefined`, which behaves like `NaN` in the arithmetic and
the stored fields — both are `none` here.  The `S`/`T` commands read
`controlPoints[length - 1]`; on an empty list that is `undefined` and
the subsequent property access throws a `TypeError`.  Unknown command
letters fall through the `switch` and leave the state unchanged. -/
def processChunk (parseNum : List Char → Option ℚ) (st : ParseState) :
    List Char → Except String ParseState
  | [] => .ok st
  | ty :: rest =>
    let args : List (Option ℚ) := (splitSep (jsTrim rest)).map parseNum
    let arg : ℕ → Option ℚ := fun i => (args.get? i).join
    let isRelative : Bool := decide (ty.toLower = ty)
    match ty.toUpper with
    | 'M' =>
      let nx := if isRelative then jadd st.currentX (arg 0) else arg 0
      let ny := if isRelative then jadd st.currentY (arg 1) else arg 1
      .ok ⟨nx, ny, st.controlPoints ++ [.moveTo nx ny]⟩
    | 'L' =>
      let nx := if isRelative then jadd st.currentX (arg 0) else arg 0
      let ny := if isRelative then jadd st.currentY (arg 1) else arg 1
      .ok ⟨nx, ny, st.controlPoints ++ [.lineTo nx ny]⟩
    | 'C' =>
      let c1x := if isRelative then jadd st.currentX (arg 0) else arg 0
      let c1y := if isRelative then jadd st.currentY (arg 1) else arg 1
      let c2x := if isRelative then jadd st.currentX (arg 2) else arg 2
      let c2y := if isRelative then jadd st.currentY (arg 3) else arg 3
      let nx := if isRelative then jadd st.currentX (arg 4) else arg 4
      let ny := if isRelative then jadd st.currentY (arg 5) else arg 5
      .ok ⟨nx, ny, st.controlPoints ++ [.cubicCurveTo nx ny c1x c1y c2x c2y]⟩
    | 'Q' =>
      let cx := if isRelative then jadd st.currentX (arg 0) else arg 0
      let cy := if isRelative then jadd st.currentY (arg 1) else arg 1
      let nx := if isRelative then jadd st.currentX (arg 2) else arg 2
      let ny := if isRelative then jadd st.currentY (arg 3) else arg 3
      .ok ⟨nx, ny, st.controlPoints ++ [.quadraticCurveTo nx ny cx cy]⟩
    | 'Z' => .ok ⟨st.currentX, st.currentY, st.controlPoints ++ [.closePath]⟩
    | 'H' =>
      let nx := if isRelative then jadd st.currentX (arg 0) else arg 0
      .ok ⟨nx, st.currentY, st.controlPoints ++ [.lineTo nx st.currentY]⟩
    | 'V' =>
      let ny := if isRelative then jadd st.currentY (arg 0) else arg 0
      .ok ⟨st.currentX, ny, st.controlPoints ++ [.lineTo st.currentX ny]⟩
    | 'S' =>
      match st.controlPoints.getLast? with
      | none => .error "TypeError"
      | some lastPt =>
        let lastCX2 : Option ℚ :=
          match lastPt with
          | .cubicCurveTo _ _ _ _ cx2 _ => cx2
          | _ => none
        let lastCY2 : Option ℚ :=
          match lastPt with
          | .cubicCurveTo _ _ _ _ _ cy2 => cy2
          | _ => none
        let reflectedX := jsub (jmul (some 2) st.currentX) lastCX2
        let reflectedY := jsub (jmul (some 2) st.currentY) lastCY2
        let c2x := if isRelative then jadd st.currentX (arg 0) else arg 0
        let c2y := if isRelative then jadd st.currentY (arg 1) else arg 1
        let nx := if isRelative then jadd st.currentX (arg 2) else arg 2
        let ny := if isRelative then jadd st.currentY (arg 3) else arg 3
        .ok ⟨nx, ny, st.controlPoints ++ [.cubicCurveTo nx ny reflectedX reflectedY c2x c2y]⟩
    | 'T' =>
      match st.controlPoints.getLast? with
      | none => .error "TypeError"
      | some lastPt =>
        let lastCX : Option ℚ :=
          match lastPt with
          | .quadraticCurveTo _ _ cx _ => cx
          | _ => none
        let lastCY : Option ℚ :=
          match lastPt with
          | .quadraticCurveTo _ _ _ cy => cy
          | _ => none
        let vx : Option ℚ :=
          match lastCX with
          | none => st.currentX
          | some q => if q = 0 then st.currentX else some q
        let vy : Option ℚ :=
          match lastCY with
          | none => st.currentY
          | some q => if q = 0 then st.currentY else some q
        let reflectedQuadX := jsub (jmul (some 2) st.currentX) vx
        let reflectedQuadY := jsub (jmul (some 2) st.currentY) vy
        let nx := if isRelative then jadd st.currentX (arg 0) else arg 0
        let ny := if isRelative then jadd st.currentY (arg 1) else arg 1
        .ok ⟨nx, ny, st.controlPoints ++
          [.quadraticCurveTo nx ny reflectedQuadX reflectedQuadY]⟩
    | 'A' =>
      let nx := if isRelative then jadd st.currentX (arg 5) else arg 5
      let ny := if isRelative then jadd st.currentY (arg 6) else arg 6
      .ok ⟨nx, ny, st.controlPoints ++ [.lineTo nx ny]⟩
    | _ => .ok st

/-- The `for (const command of commands)` loop; a thrown `TypeError`
aborts it. -/
def runChunks (parseNum : List Char → Option ℚ) :
    ParseState → List (List Char) → Except String ParseState
  | st, [] => .ok st
  | st, chunk :: rest =>
    match processChunk parseNum st chunk with
    | .error e => .error e
    | .ok st' => runChunks parseNum st' rest

/-- `parseCommands(d)`: `match` returning `null` (no command token at
all) throws; otherwise fold the chunk list from current point `(0,0)`. -/
def parseCommands (parseNum : List Char → Option ℚ) (d : List Char) :
    Except String (List (BezierControlPoint (Option ℚ))) :=
  match chunks d with
  | [] => .error "Invalid SVG path data"
  | c :: cs =>
    (runChunks parseNum ⟨some 0, some 0, []⟩ (c :: cs)).map (·.controlPoints)

def cpMap {α β : Type _} (f : α → β) : BezierControlPoint α → BezierControlPoint β
  | .moveTo x y => .moveTo (f x) (f y)
  | .lineTo x y => .lineTo (f x) (f y)
  | .quadraticCurveTo x y cx cy => .quadraticCurveTo (f x) (f y) (f cx) (f cy)
  | .cubicCurveTo x y c1x c1y c2x c2y =>
    .cubicCurveTo (f x) (f y) (f c1x) (f c1y) (f c2x) (f c2y)
  | .closePath => .closePath

/-- The numeric coordinates of one control point, in the order the
serializer writes them. -/
def coords : BezierControlPoint ℚ → List ℚ
  | .moveTo x y => [x, y]
  | .lineTo x y => [x, y]
  | .quadraticCurveTo x y cx cy => [cx, cy, x, y]
  | .cubicCurveTo x y c1x c1y c2x c2y => [c1x, c1y, c2x, c2y, x, y]
  | .closePath => []

/-- One `path += ...` template of `toSVGPath`, without its trailing
space: the command letter, then the coordinates separated by single
spaces (`M x y` / `L x y` / `Q cx cy x y` / `C c1x c1y c2x c2y x y` /
`Z`). -/
def tokenCore (fmt : ℚ → List Char) : BezierControlPoint ℚ → List Char
  | .moveTo x y => 'M' :: ' ' :: (fmt x ++ ' ' :: fmt y)
  | .lineTo x y => 'L' :: ' ' :: (fmt x ++ ' ' :: fmt y)
  | .quadraticCurveTo x y cx cy =>
    'Q' :: ' ' :: (fmt cx ++ ' ' :: (fmt cy ++ ' ' :: (fmt x ++ ' ' :: fmt y)))
  | .cubicCurveTo x y c1x c1y c2x c2y =>
    'C' :: ' ' :: (fmt c1x ++ ' ' :: (fmt c1y ++ ' ' :: (fmt c2x ++ ' ' ::
      (fmt c2y ++ ' ' :: (fmt x ++ ' ' :: fmt y)))))
  | .closePath => ['Z']

/-- `toSVGPath()`: concatenate one space-terminated template per control
point, then `trim()`. -/
def toSVGPath (fmt : ℚ → List Char) (controlPoints : List (BezierControlPoint ℚ)) :
    List Char :=
  jsTrim ((controlPoints.map fun p => tokenCore fmt p ++ [' ']).flatten)

/-- The parse-state transition that processing the serialized chunk of
an (absolute-command) control point performs. -/
def stepState (st : ParseState) : BezierControlPoint ℚ → ParseState
  | .moveTo x y => ⟨some x, some y, st.controlPoints ++ [.moveTo (some x) (some y)]⟩
  | .lineTo x y => ⟨some x, some y, st.controlPoints ++ [.lineTo (some x) (some y)]⟩
  | .quadraticCurveTo x y cx cy =>
    ⟨some x, some y, st.controlPoints ++ [.quadraticCurveTo (some x) (some y) (some cx) (some cy)]⟩
  | .cubicCurveTo x y c1x c1y c2x c2y =>
    ⟨some x, some y, st.controlPoints ++
      [.cubicCurveTo (some x) (some y) (some c1x) (some c1y) (some c2x) (some c2y)]⟩
  | .closePath => ⟨st.currentX, st.currentY, st.controlPoints ++ [.closePath]⟩

/-- Space-joined argument list (the shape of a chunk's argument string
after trimming). -/
def joinArgs : List (List Char) → List Char
  | [] => []
  | [x] => x
  | x :: rest => x ++ ' ' :: joinArgs rest

/-- The coordinate-formatting contract the round trip needs: `parseNum`
inverts `fmt`, and `fmt` output is nonempty and free of letters and of
separator characters (in JavaScript, finite doubles outside the
exponent-notation range satisfy this for `${x}` and `Number`). -/
def goodFmt (fmt : ℚ → List Char) (parseNum : List Char → Option ℚ) (q : ℚ) : Prop :=
  parseNum (fmt q) = some q ∧ fmt q ≠ [] ∧
    ∀ c ∈ fmt q, isAlphaChar c = false ∧ isSepChar c = false


/-! ## Theorems -/

theorem except_error_iff {ε α : Type _} (x : Except ε α) :
    (∃ e, x = .error e) ↔ ¬ ∃ a, x = .ok a := by
  cases x <;> simp

theorem except_map_ok_iff {ε α β : Type _} (f : α → β) (x : Except ε α) :
    (∃ b, x.map f = .ok b) ↔ ∃ a, x = .ok a := by
  cases x <;> simp [Except.map]

namespace MultiArray

theorem calcIndexAux_isOk (idx : List ℤ) : ∀ dims : List ℕ,
    (∃ k, calcIndexAux idx dims = .ok k) ↔ inBounds dims idx := by
  induction idx with
  | nil =>
    intro dims
    cases dims <;> simp [calcIndexAux, inBounds]
  | cons i is ih =>
    intro dims
    cases dims with
    | nil => simp [calcIndexAux, inBounds]
    | cons d ds =>
      rw [inBounds, List.forall₂_cons, ← inBounds, ← ih ds]
      rw [calcIndexAux]
      by_cases h : i < 0 ∨ (d : ℤ) ≤ i
      · simp only [if_pos h]
        constructor
        · rintro ⟨k, hk⟩; cases hk
        · rintro ⟨⟨h0, h1⟩, _⟩; omega
      · simp only [if_neg h]
        constructor
        · rintro ⟨k, hk⟩
          refine ⟨⟨by omega, by omega⟩, ?_⟩
          cases hrec : calcIndexAux is ds with
          | ok rest => exact ⟨rest, rfl⟩
          | error e => rw [hrec] at hk; cases hk
        · rintro ⟨-, rest, hrest⟩
          exact ⟨i.toNat * ds.prod + rest, by rw [hrest]⟩

theorem calcIndexAux_lt (idx : List ℤ) : ∀ (dims : List ℕ) (k : ℕ),
    calcIndexAux idx dims = .ok k → k < dims.prod := by
  induction idx with
  | nil =>
    intro dims k hk
    cases dims with
    | nil => rw [calcIndexAux] at hk; cases hk; simp
    | cons d ds => cases hk
  | cons i is ih =>
    intro dims k hk
    cases dims with
    | nil => cases hk
    | cons d ds =>
      rw [calcIndexAux] at hk
      by_cases h : i < 0 ∨ (d : ℤ) ≤ i
      · rw [if_pos h] at hk; cases hk
      · rw [if_neg h] at hk
        cases hrec : calcIndexAux is ds with
        | error e => rw [hrec] at hk; cases hk
        | ok rest =>
          rw [hrec] at hk
          cases hk
          have hrest := ih ds rest hrec
          have hi : i.toNat + 1 ≤ d := by omega
          calc i.toNat * ds.prod + rest < i.toNat * ds.prod + ds.prod := by omega
            _ = (i.toNat + 1) * ds.prod := by ring
            _ ≤ d * ds.prod := Nat.mul_le_mul_right ds.prod hi
            _ = (d :: ds).prod := (List.prod_cons).symm

theorem mixed_radix_inj {P a b r s : ℕ} (hr : r < P) (hs : s < P)
    (h : a * P + r = b * P + s) : a = b ∧ r = s := by
  have hab : a = b := by
    rcases Nat.lt_trichotomy a b with hab | hab | hab
    · exfalso
      have : a * P + r < b * P + s := by
        calc a * P + r < a * P + P := by omega
          _ = (a + 1) * P := by ring
          _ ≤ b * P := Nat.mul_le_mul_right P (by omega)
          _ ≤ b * P + s := by omega
      omega
    · exact hab
    · exfalso
      have : b * P + s < a * P + r := by
        calc b * P + s < b * P + P := by omega
          _ = (b + 1) * P := by ring
          _ ≤ a * P := Nat.mul_le_mul_right P (by omega)
          _ ≤ a * P + r := by omega
      omega
  subst hab
  omega

theorem calcIndexAux_inj (idx₁ : List ℤ) : ∀ (idx₂ : List ℤ) (dims : List ℕ) (k : ℕ),
    calcIndexAux idx₁ dims = .ok k → calcIndexAux idx₂ dims = .ok k → idx₁ = idx₂ := by
  induction idx₁ with
  | nil =>
    intro idx₂ dims k h1 h2
    cases dims with
    | nil =>
      cases idx₂ with
      | nil => rfl
      | cons j js => cases h2
    | cons d ds => cases h1
  | cons i is ih =>
    intro idx₂ dims k h1 h2
    cases dims with
    | nil => cases h1
    | cons d ds =>
      cases idx₂ with
      | nil => cases h2
      | cons j js =>
        rw [calcIndexAux] at h1 h2
        by_cases hi : i < 0 ∨ (d : ℤ) ≤ i
        · rw [if_pos hi] at h1; cases h1
        by_cases hj : j < 0 ∨ (d : ℤ) ≤ j
        · rw [if_pos hj] at h2; cases h2
        rw [if_neg hi] at h1
        rw [if_neg hj] at h2
        cases hr1 : calcIndexAux is ds with
        | error e => rw [hr1] at h1; cases h1
        | ok r1 =>
          cases hr2 : calcIndexAux js ds with
          | error e => rw [hr2] at h2; cases h2
          | ok r2 =>
            rw [hr1] at h1
            rw [hr2] at h2
            have hk1 : i.toNat * ds.prod + r1 = k := by injection h1
            have hk2' : j.toNat * ds.prod + r2 = k := by injection h2
            have hk2 : i.toNat * ds.prod + r1 = j.toNat * ds.prod + r2 := by
              rw [hk1, hk2']
            obtain ⟨hab, hrs⟩ := mixed_radix_inj (calcIndexAux_lt is ds r1 hr1)
              (calcIndexAux_lt js ds r2 hr2) hk2
            have : i = j := by omega
            subst this
            rw [ih js ds r1 hr1 (by rw [hr2, hrs])]

theorem calculateIndex_isOk (dims : List ℕ) (idx : List ℤ) :
    (∃ k, calculateIndex dims idx = .ok k) ↔ inBounds dims idx := by
  rw [calculateIndex]
  by_cases h : idx.length ≠ dims.length
  · simp only [if_pos h]
    constructor
    · rintro ⟨k, hk⟩; cases hk
    · intro hb; exact absurd (List.Forall₂.length_eq hb) h
  · rw [if_neg h]
    exact calcIndexAux_isOk idx dims

theorem getD_set_self {α : Type _} (l : List α) (k : ℕ) (v d : α) (h : k < l.length) :
    (l.set k v).getD k d = v := by
  induction l generalizing k with
  | nil => simp at h
  | cons a as ih =>
    cases k with
    | zero => rfl
    | succ k => exact ih k (by simpa using h)

theorem getD_set_ne {α : Type _} (l : List α) (j k : ℕ) (v d : α) (h : j ≠ k) :
    (l.set k v).getD j d = l.getD j d := by
  induction l generalizing j k with
  | nil => rfl
  | cons a as ih =>
    cases k with
    | zero => cases j with
      | zero => exact absurd rfl h
      | succ j => rfl
    | succ k => cases j with
      | zero => rfl
      | succ j => exact ih j k (by omega)

theorem calculateIndex_lt (dims : List ℕ) (idx : List ℤ) (k : ℕ)
    (h : calculateIndex dims idx = .ok k) : k < dims.prod := by
  rw [calculateIndex] at h
  by_cases hl : idx.length ≠ dims.length
  · rw [if_pos hl] at h; cases h
  · rw [if_neg hl] at h; exact calcIndexAux_lt idx dims k h

theorem calculateIndex_inj (dims : List ℕ) (idx₁ idx₂ : List ℤ) (k : ℕ)
    (h₁ : calculateIndex dims idx₁ = .ok k) (h₂ : calculateIndex dims idx₂ = .ok k) :
    idx₁ = idx₂ := by
  rw [calculateIndex] at h₁ h₂
  by_cases hl₁ : idx₁.length ≠ dims.length
  · rw [if_pos hl₁] at h₁; cases h₁
  by_cases hl₂ : idx₂.length ≠ dims.length
  · rw [if_pos hl₂] at h₂; cases h₂
  rw [if_neg hl₁] at h₁
  rw [if_neg hl₂] at h₂
  exact calcIndexAux_inj idx₁ idx₂ dims k h₁ h₂

end MultiArray

/-- Claim C9: on a `MultiArray` of any declared shape, `get` and `set`
fail exactly when the coordinate count differs from the declared rank or
some coordinate is outside `[0, dimSize)`; and for an in-bounds tuple,
`set` followed by `get` at the same coordinates returns exactly the value
set, while every other in-bounds cell keeps its previous value. -/
theorem multiArray_bounds_roundtrip {T : Type} [Inhabited T]
    (ma : MultiArray T) (hwf : ma.WF) (v : T) (idx idx₂ : List ℤ)
    (ma' : MultiArray T) :
    ((∃ e, ma.get idx = .error e) ↔ ¬ MultiArray.inBounds ma.dimensions idx) ∧
    ((∃ e, ma.set v idx = .error e) ↔ ¬ MultiArray.inBounds ma.dimensions idx) ∧
    (MultiArray.inBounds ma.dimensions idx → ∃ mb, ma.set v idx = .ok mb) ∧
    (ma.set v idx = .ok ma' →
      ma'.get idx = .ok v ∧
      (MultiArray.inBounds ma.dimensions idx₂ → idx₂ ≠ idx →
        ma'.get idx₂ = ma.get idx₂)) := by
  refine ⟨?_, ?_, ?_, ?_⟩
  · rw [MultiArray.get, except_error_iff, except_map_ok_iff,
      MultiArray.calculateIndex_isOk]
  · rw [MultiArray.set, except_error_iff, except_map_ok_iff,
      MultiArray.calculateIndex_isOk]
  · intro hb
    obtain ⟨k, hk⟩ := (MultiArray.calculateIndex_isOk ma.dimensions idx).mpr hb
    exact ⟨{ ma with data := ma.data.set k v }, by rw [MultiArray.set, hk]; rfl⟩
  · intro hset
    rw [MultiArray.set] at hset
    cases hk : MultiArray.calculateIndex ma.dimensions idx with
    | error e => rw [hk] at hset; cases hset
    | ok k =>
      rw [hk] at hset
      have hma' : ma' = { ma with data := ma.data.set k v } := by
        injection hset with h
        exact h.symm
      subst hma'
      have hklen : k < ma.data.length := by
        rw [hwf]; exact MultiArray.calculateIndex_lt ma.dimensions idx k hk
      constructor
      · rw [MultiArray.get]
        show (MultiArray.calculateIndex ma.dimensions idx).map _ = _
        rw [hk]
        show Except.ok ((ma.data.set k v).getD k default) = _
        rw [MultiArray.getD_set_self ma.data k v default hklen]
      · intro hb₂ hne
        obtain ⟨k₂, hk₂⟩ := (MultiArray.calculateIndex_isOk ma.dimensions idx₂).mpr hb₂
        have hkne : k₂ ≠ k := by
          intro heq
          exact hne (MultiArray.calculateIndex_inj ma.dimensions idx₂ idx k (heq ▸ hk₂) hk)
        rw [MultiArray.get, MultiArray.get]
        show (MultiArray.calculateIndex ma.dimensions idx₂).map _ = (MultiArray.calculateIndex ma.dimensions idx₂).map _
        rw [hk₂]
        show Except.ok ((ma.data.set k v).getD k₂ default) = Except.ok (ma.data.getD k₂ default)
        rw [MultiArray.getD_set_ne ma.data k₂ k v default hkne]

/-- Witness for C9 at the spec's Scenario C: a `[3,3]` boolean mask, all
false; `set(true, 1, 2)` lands in flat cell 5 and `get(1, 2)` reads the
value back. -/
theorem multiArray_bounds_roundtrip_witness :
    (MultiArray.make [3, 3] false).WF ∧
    (MultiArray.mk ((List.replicate 9 false).set 5 true) [3, 3]).get [1, 2] = .ok true := by
  have h := multiArray_bounds_roundtrip (MultiArray.make [3, 3] false) (by rfl) true
    [1, 2] [0, 1] (MultiArray.mk ((List.replicate 9 false).set 5 true) [3, 3])
  exact ⟨by rfl, (h.2.2.2 (by rfl)).1⟩


/-! ### Branch-evaluation lemmas for the path operations -/

theorem getZ_some_of_range {α : Type _} (l : List α) (i : ℤ)
    (h : ¬(i < 0 ∨ (l.length : ℤ) ≤ i)) : ∃ a, getZ l i = some a := by
  push_neg at h
  rw [getZ, if_pos h.1]
  cases hg : l.get? i.toNat with
  | some a => exact ⟨a, rfl⟩
  | none =>
    rw [List.get?_eq_none] at hg
    omega

theorem pointForNearestSegment_line (layer : PathLayer) (seg : BezierNearestSegment)
    (x2 y2 : ℚ) (a : Pt)
    (h0 : ¬(seg.index < 0 ∨ (layer.controlPoints.length : ℤ) ≤ seg.index))
    (hcur : getZ layer.controlPoints seg.index = some (.lineTo x2 y2))
    (hprev : prevAnchor (getZ layer.controlPoints (seg.index - 1)) = some a) :
    pointForNearestSegment layer seg =
      .ok ⟨a.x + seg.t * (x2 - a.x), a.y + seg.t * (y2 - a.y)⟩ := by
  rw [pointForNearestSegment, if_neg h0]
  simp only [hcur, hprev]

theorem pointForNearestSegment_quad (layer : PathLayer) (seg : BezierNearestSegment)
    (x2 y2 cx cy : ℚ) (a : Pt)
    (h0 : ¬(seg.index < 0 ∨ (layer.controlPoints.length : ℤ) ≤ seg.index))
    (hcur : getZ layer.controlPoints seg.index = some (.quadraticCurveTo x2 y2 cx cy))
    (hprev : prevAnchor (getZ layer.controlPoints (seg.index - 1)) = some a) :
    pointForNearestSegment layer seg =
      .ok (cubicPoint (quadraticToCubic a.x a.y cx cy x2 y2) seg.t) := by
  rw [pointForNearestSegment, if_neg h0]
  simp only [hcur, hprev]

theorem pointForNearestSegment_cubic (layer : PathLayer) (seg : BezierNearestSegment)
    (x2 y2 cx1 cy1 cx2 cy2 : ℚ) (a : Pt)
    (h0 : ¬(seg.index < 0 ∨ (layer.controlPoints.length : ℤ) ≤ seg.index))
    (hcur : getZ layer.controlPoints seg.index = some (.cubicCurveTo x2 y2 cx1 cy1 cx2 cy2))
    (hprev : prevAnchor (getZ layer.controlPoints (seg.index - 1)) = some a) :
    pointForNearestSegment layer seg =
      .ok (cubicPoint ⟨a, ⟨cx1, cy1⟩, ⟨cx2, cy2⟩, ⟨x2, y2⟩⟩ seg.t) := by
  rw [pointForNearestSegment, if_neg h0]
  simp only [hcur, hprev]

theorem addNearestSegment_index_error (layer : PathLayer) (nearest : BezierNearestSegment)
    (h0 : nearest.index < 0 ∨ (layer.controlPoints.length : ℤ) ≤ nearest.index) :
    addNearestSegment layer nearest = (.error "Invalid segment index", layer) := by
  rw [addNearestSegment, if_pos h0]

theorem addNearestSegment_moveTo_error (layer : PathLayer) (nearest : BezierNearestSegment)
    (x y : ℚ)
    (h0 : ¬(nearest.index < 0 ∨ (layer.controlPoints.length : ℤ) ≤ nearest.index))
    (hcur : getZ layer.controlPoints nearest.index = some (.moveTo x y)) :
    addNearestSegment layer nearest = (.error "Invalid control point type", layer) := by
  rw [addNearestSegment, if_neg h0]
  simp only [hcur]

theorem addNearestSegment_closePath_error (layer : PathLayer) (nearest : BezierNearestSegment)
    (h0 : ¬(nearest.index < 0 ∨ (layer.controlPoints.length : ℤ) ≤ nearest.index))
    (hcur : getZ layer.controlPoints nearest.index = some .closePath) :
    addNearestSegment layer nearest = (.error "Invalid control point type", layer) := by
  rw [addNearestSegment, if_neg h0]
  simp only [hcur]

theorem addNearestSegment_line_adj_error (layer : PathLayer) (nearest : BezierNearestSegment)
    (x2 y2 : ℚ)
    (h0 : ¬(nearest.index < 0 ∨ (layer.controlPoints.length : ℤ) ≤ nearest.index))
    (hcur : getZ layer.controlPoints nearest.index = some (.lineTo x2 y2))
    (hprev : prevAnchor (getZ layer.controlPoints (nearest.index - 1)) = none) :
    addNearestSegment layer nearest = (.error "Invalid control points", layer) := by
  rw [addNearestSegment, if_neg h0]
  simp only [hcur, hprev]

theorem addNearestSegment_quad_adj_error (layer : PathLayer) (nearest : BezierNearestSegment)
    (x2 y2 cx cy : ℚ)
    (h0 : ¬(nearest.index < 0 ∨ (layer.controlPoints.length : ℤ) ≤ nearest.index))
    (hcur : getZ layer.controlPoints nearest.index = some (.quadraticCurveTo x2 y2 cx cy))
    (hprev : prevAnchor (getZ layer.controlPoints (nearest.index - 1)) = none) :
    addNearestSegment layer nearest = (.error "Invalid control points", layer) := by
  rw [addNearestSegment, if_neg h0]
  simp only [hcur, hprev]

theorem addNearestSegment_cubic_adj_error (layer : PathLayer) (nearest : BezierNearestSegment)
    (x2 y2 cx1 cy1 cx2 cy2 : ℚ)
    (h0 : ¬(nearest.index < 0 ∨ (layer.controlPoints.length : ℤ) ≤ nearest.index))
    (hcur : getZ layer.controlPoints nearest.index = some (.cubicCurveTo x2 y2 cx1 cy1 cx2 cy2))
    (hprev : prevAnchor (getZ layer.controlPoints (nearest.index - 1)) = none) :
    addNearestSegment layer nearest = (.error "Invalid control points", layer) := by
  rw [addNearestSegment, if_neg h0]
  simp only [hcur, hprev]

theorem addNearestSegment_line_ok (layer : PathLayer) (nearest : BezierNearestSegment)
    (x2 y2 : ℚ) (a : Pt)
    (h0 : ¬(nearest.index < 0 ∨ (layer.controlPoints.length : ℤ) ≤ nearest.index))
    (hcur : getZ layer.controlPoints nearest.index = some (.lineTo x2 y2))
    (hprev : prevAnchor (getZ layer.controlPoints (nearest.index - 1)) = some a) :
    addNearestSegment layer nearest =
      (.ok (), PathLayer.mk layer.translation
        (spliceInsert layer.controlPoints nearest.index.toNat
          (.lineTo (a.x + nearest.t * (x2 - a.x)) (a.y + nearest.t * (y2 - a.y))))
        layer.boundingBoxCache) := by
  rw [addNearestSegment, if_neg h0]
  simp only [hcur, hprev,
    pointForNearestSegment_line layer nearest x2 y2 a h0 hcur hprev]

theorem addNearestSegment_quad_ok (layer : PathLayer) (nearest : BezierNearestSegment)
    (x2 y2 cx cy : ℚ) (a : Pt)
    (h0 : ¬(nearest.index < 0 ∨ (layer.controlPoints.length : ℤ) ≤ nearest.index))
    (hcur : getZ layer.controlPoints nearest.index = some (.quadraticCurveTo x2 y2 cx cy))
    (hprev : prevAnchor (getZ layer.controlPoints (nearest.index - 1)) = some a) :
    addNearestSegment layer nearest =
      (.ok (), PathLayer.mk layer.translation
        (spliceReplace2 layer.controlPoints nearest.index.toNat
          (.cubicCurveTo ((cubicSplit (quadraticToCubic a.x a.y cx cy x2 y2) nearest.t).left.p3.x)
            ((cubicSplit (quadraticToCubic a.x a.y cx cy x2 y2) nearest.t).left.p3.y)
            ((cubicSplit (quadraticToCubic a.x a.y cx cy x2 y2) nearest.t).left.p1.x)
            ((cubicSplit (quadraticToCubic a.x a.y cx cy x2 y2) nearest.t).left.p1.y)
            ((cubicSplit (quadraticToCubic a.x a.y cx cy x2 y2) nearest.t).left.p2.x)
            ((cubicSplit (quadraticToCubic a.x a.y cx cy x2 y2) nearest.t).left.p2.y))
          (.cubicCurveTo x2 y2
            ((cubicSplit (quadraticToCubic a.x a.y cx cy x2 y2) nearest.t).right.p1.x)
            ((cubicSplit (quadraticToCubic a.x a.y cx cy x2 y2) nearest.t).right.p1.y)
            ((cubicSplit (quadraticToCubic a.x a.y cx cy x2 y2) nearest.t).right.p2.x)
            ((cubicSplit (quadraticToCubic a.x a.y cx cy x2 y2) nearest.t).right.p2.y)))
        layer.boundingBoxCache) := by
  rw [addNearestSegment, if_neg h0]
  simp only [hcur, hprev]

theorem addNearestSegment_cubic_ok (layer : PathLayer) (nearest : BezierNearestSegment)
    (x2 y2 cx1 cy1 cx2 cy2 : ℚ) (a : Pt)
    (h0 : ¬(nearest.index < 0 ∨ (layer.controlPoints.length : ℤ) ≤ nearest.index))
    (hcur : getZ layer.controlPoints nearest.index = some (.cubicCurveTo x2 y2 cx1 cy1 cx2 cy2))
    (hprev : prevAnchor (getZ layer.controlPoints (nearest.index - 1)) = some a) :
    addNearestSegment layer nearest =
      (.ok (), PathLayer.mk layer.translation
        (spliceReplace2 layer.controlPoints nearest.index.toNat
          (.cubicCurveTo ((cubicSplit ⟨a, ⟨cx1, cy1⟩, ⟨cx2, cy2⟩, ⟨x2, y2⟩⟩ nearest.t).left.p3.x)
            ((cubicSplit ⟨a, ⟨cx1, cy1⟩, ⟨cx2, cy2⟩, ⟨x2, y2⟩⟩ nearest.t).left.p3.y)
            ((cubicSplit ⟨a, ⟨cx1, cy1⟩, ⟨cx2, cy2⟩, ⟨x2, y2⟩⟩ nearest.t).left.p1.x)
            ((cubicSplit ⟨a, ⟨cx1, cy1⟩, ⟨cx2, cy2⟩, ⟨x2, y2⟩⟩ nearest.t).left.p1.y)
            ((cubicSplit ⟨a, ⟨cx1, cy1⟩, ⟨cx2, cy2⟩, ⟨x2, y2⟩⟩ nearest.t).left.p2.x)
            ((cubicSplit ⟨a, ⟨cx1, cy1⟩, ⟨cx2, cy2⟩, ⟨x2, y2⟩⟩ nearest.t).left.p2.y))
          (.cubicCurveTo x2 y2
            ((cubicSplit ⟨a, ⟨cx1, cy1⟩, ⟨cx2, cy2⟩, ⟨x2, y2⟩⟩ nearest.t).right.p1.x)
            ((cubicSplit ⟨a, ⟨cx1, cy1⟩, ⟨cx2, cy2⟩, ⟨x2, y2⟩⟩ nearest.t).right.p1.y)
            ((cubicSplit ⟨a, ⟨cx1, cy1⟩, ⟨cx2, cy2⟩, ⟨x2, y2⟩⟩ nearest.t).right.p2.x)
            ((cubicSplit ⟨a, ⟨cx1, cy1⟩, ⟨cx2, cy2⟩, ⟨x2, y2⟩⟩ nearest.t).right.p2.y)))
        layer.boundingBoxCache) := by
  rw [addNearestSegment, if_neg h0]
  simp only [hcur, hprev]


/-! ### Index arithmetic of the two splice shapes -/

theorem spliceInsert_length {α : Type _} (l : List α) (i : ℕ) (a : α) (h : i ≤ l.length) :
    (spliceInsert l i a).length = l.length + 1 := by
  simp [spliceInsert, List.length_take, List.length_drop]
  omega

theorem spliceInsert_get?_lt {α : Type _} (l : List α) (i : ℕ) (a : α) (j : ℕ)
    (hle : i ≤ l.length) (h : j < i) : (spliceInsert l i a).get? j = l.get? j := by
  rw [spliceInsert, List.get?_append, List.get?_take h]
  rw [List.length_take]
  omega

theorem spliceInsert_get?_self {α : Type _} (l : List α) (i : ℕ) (a : α)
    (h : i ≤ l.length) : (spliceInsert l i a).get? i = some a := by
  rw [spliceInsert, List.get?_append_right]
  · have hlen : (l.take i).length = i := by rw [List.length_take]; omega
    rw [hlen, Nat.sub_self]
    rfl
  · rw [List.length_take]; omega

theorem spliceInsert_get?_ge {α : Type _} (l : List α) (i : ℕ) (a : α) (j : ℕ)
    (hle : i ≤ l.length) (h : i ≤ j) : (spliceInsert l i a).get? (j + 1) = l.get? j := by
  rw [spliceInsert, List.get?_append_right]
  · have hlen : (l.take i).length = i := by rw [List.length_take]; omega
    rw [hlen]
    have : j + 1 - i = (j - i) + 1 := by omega
    rw [this]
    show (List.drop i l).get? (j - i) = l.get? j
    rw [List.get?_drop]
    congr 1
    omega
  · rw [List.length_take]; omega

theorem spliceReplace2_length {α : Type _} (l : List α) (i : ℕ) (a b : α)
    (h : i < l.length) : (spliceReplace2 l i a b).length = l.length + 1 := by
  simp [spliceReplace2, List.length_take, List.length_drop]
  omega

theorem spliceReplace2_get?_lt {α : Type _} (l : List α) (i : ℕ) (a b : α) (j : ℕ)
    (hle : i < l.length) (h : j < i) : (spliceReplace2 l i a b).get? j = l.get? j := by
  rw [spliceReplace2, List.get?_append, List.get?_take h]
  rw [List.length_take]
  omega

theorem spliceReplace2_get?_self {α : Type _} (l : List α) (i : ℕ) (a b : α)
    (h : i < l.length) : (spliceReplace2 l i a b).get? i = some a := by
  rw [spliceReplace2, List.get?_append_right]
  · have hlen : (l.take i).length = i := by rw [List.length_take]; omega
    rw [hlen, Nat.sub_self]
    rfl
  · rw [List.length_take]; omega

theorem spliceReplace2_get?_succ {α : Type _} (l : List α) (i : ℕ) (a b : α)
    (h : i < l.length) : (spliceReplace2 l i a b).get? (i + 1) = some b := by
  rw [spliceReplace2, List.get?_append_right]
  · have hlen : (l.take i).length = i := by rw [List.length_take]; omega
    rw [hlen]
    have : i + 1 - i = 1 := by omega
    rw [this]
    rfl
  · rw [List.length_take]; omega

theorem spliceReplace2_get?_gt {α : Type _} (l : List α) (i : ℕ) (a b : α) (j : ℕ)
    (hle : i < l.length) (h : i < j) : (spliceReplace2 l i a b).get? (j + 1) = l.get? j := by
  rw [spliceReplace2, List.get?_append_right]
  · have hlen : (l.take i).length = i := by rw [List.length_take]; omega
    rw [hlen]
    have h2 : j + 1 - i = (j - i - 1) + 2 := by omega
    rw [h2]
    show (List.drop (i + 1) l).get? (j - i - 1) = l.get? j
    rw [List.get?_drop]
    congr 1
    omega
  · rw [List.length_take]; omega


/-- Claim C8: `addNearestSegment((index, t))` raises an error exactly
when the index is outside `[0, length)`, or the targeted point's
predecessor is missing or `closePath` (i.e. supplies no anchor), or the
targeted point is of type `moveTo` or `closePath`; and whenever it
raises, the control-point sequence (indeed the whole layer state) is
left unchanged. -/
theorem addNearestSegment_error_iff (layer : PathLayer) (nearest : BezierNearestSegment) :
    ((∃ e, (addNearestSegment layer nearest).1 = .error e) ↔
      ((nearest.index < 0 ∨ (layer.controlPoints.length : ℤ) ≤ nearest.index) ∨
        (∃ cur, getZ layer.controlPoints nearest.index = some cur ∧
          ((∃ x y, cur = .moveTo x y) ∨ cur = .closePath ∨
            prevAnchor (getZ layer.controlPoints (nearest.index - 1)) = none)))) ∧
    ((∃ e, (addNearestSegment layer nearest).1 = .error e) →
      (addNearestSegment layer nearest).2 = layer) := by
  by_cases h0 : nearest.index < 0 ∨ (layer.controlPoints.length : ℤ) ≤ nearest.index
  · rw [addNearestSegment_index_error layer nearest h0]
    exact ⟨⟨fun _ => .inl h0, fun _ => ⟨"Invalid segment index", rfl⟩⟩, fun _ => rfl⟩
  · obtain ⟨cur, hcur⟩ := getZ_some_of_range layer.controlPoints nearest.index h0
    have hax : ∀ cur', getZ layer.controlPoints nearest.index = some cur' → cur' = cur := by
      intro cur' h'
      rw [hcur] at h'
      injection h' with h'
      exact h'.symm
    cases cur with
    | moveTo x y =>
      rw [addNearestSegment_moveTo_error layer nearest x y h0 hcur]
      refine ⟨⟨fun _ => .inr ⟨_, hcur, .inl ⟨x, y, rfl⟩⟩,
        fun _ => ⟨"Invalid control point type", rfl⟩⟩, fun _ => rfl⟩
    | closePath =>
      rw [addNearestSegment_closePath_error layer nearest h0 hcur]
      refine ⟨⟨fun _ => .inr ⟨_, hcur, .inr (.inl rfl)⟩,
        fun _ => ⟨"Invalid control point type", rfl⟩⟩, fun _ => rfl⟩
    | lineTo x2 y2 =>
      cases hprev : prevAnchor (getZ layer.controlPoints (nearest.index - 1)) with
      | none =>
        rw [addNearestSegment_line_adj_error layer nearest x2 y2 h0 hcur hprev]
        refine ⟨⟨fun _ => .inr ⟨_, hcur, .inr (.inr rfl)⟩,
          fun _ => ⟨"Invalid control points", rfl⟩⟩, fun _ => rfl⟩
      | some a =>
        rw [addNearestSegment_line_ok layer nearest x2 y2 a h0 hcur hprev]
        constructor
        · constructor
          · rintro ⟨e, he⟩; cases he
          · rintro (h | ⟨cur', hcur', hbad⟩)
            · exact absurd h h0
            · rw [hax cur' hcur'] at hbad
              rcases hbad with ⟨x, y, hxy⟩ | hcp | hpn
              · cases hxy
              · cases hcp
              · cases hpn
        · rintro ⟨e, he⟩; cases he
    | quadraticCurveTo x2 y2 cx cy =>
      cases hprev : prevAnchor (getZ layer.controlPoints (nearest.index - 1)) with
      | none =>
        rw [addNearestSegment_quad_adj_error layer nearest x2 y2 cx cy h0 hcur hprev]
        refine ⟨⟨fun _ => .inr ⟨_, hcur, .inr (.inr rfl)⟩,
          fun _ => ⟨"Invalid control points", rfl⟩⟩, fun _ => rfl⟩
      | some a =>
        rw [addNearestSegment_quad_ok layer nearest x2 y2 cx cy a h0 hcur hprev]
        constructor
        · constructor
          · rintro ⟨e, he⟩; cases he
          · rintro (h | ⟨cur', hcur', hbad⟩)
            · exact absurd h h0
            · rw [hax cur' hcur'] at hbad
              rcases hbad with ⟨x, y, hxy⟩ | hcp | hpn
              · cases hxy
              · cases hcp
              · cases hpn
        · rintro ⟨e, he⟩; cases he
    | cubicCurveTo x2 y2 cx1 cy1 cx2 cy2 =>
      cases hprev : prevAnchor (getZ layer.controlPoints (nearest.index - 1)) with
      | none =>
        rw [addNearestSegment_cubic_adj_error layer nearest x2 y2 cx1 cy1 cx2 cy2 h0 hcur hprev]
        refine ⟨⟨fun _ => .inr ⟨_, hcur, .inr (.inr rfl)⟩,
          fun _ => ⟨"Invalid control points", rfl⟩⟩, fun _ => rfl⟩
      | some a =>
        rw [addNearestSegment_cubic_ok layer nearest x2 y2 cx1 cy1 cx2 cy2 a h0 hcur hprev]
        constructor
        · constructor
          · rintro ⟨e, he⟩; cases he
          · rintro (h | ⟨cur', hcur', hbad⟩)
            · exact absurd h h0
            · rw [hax cur' hcur'] at hbad
              rcases hbad with ⟨x, y, hxy⟩ | hcp | hpn
              · cases hxy
              · cases hcp
              · cases hpn
        · rintro ⟨e, he⟩; cases he


/-- Witness for C8 at a concrete out-of-range index: the call reports
the index error and leaves the two-point layer untouched. -/
theorem addNearestSegment_error_iff_witness :
    (addNearestSegment ⟨⟨0, 0⟩, [.moveTo 0 0, .lineTo 10 0], none⟩ ⟨5, 1/2⟩).1 =
      .error "Invalid segment index" ∧
    (addNearestSegment ⟨⟨0, 0⟩, [.moveTo 0 0, .lineTo 10 0], none⟩ ⟨5, 1/2⟩).2 =
      ⟨⟨0, 0⟩, [.moveTo 0 0, .lineTo 10 0], none⟩ := by
  have h := addNearestSegment_error_iff ⟨⟨0, 0⟩, [.moveTo 0 0, .lineTo 10 0], none⟩ ⟨5, 1/2⟩
  have heval := addNearestSegment_index_error
    ⟨⟨0, 0⟩, [.moveTo 0 0, .lineTo 10 0], none⟩ ⟨5, 1/2⟩ (by right; norm_num)
  refine ⟨by rw [heval], h.2 ⟨"Invalid segment index", by rw [heval]⟩⟩

/-- Claim C10: a successful `addNearestSegment` call grows the sequence
by exactly one and preserves every non-targeted point: indices below the
target keep value and position, indices above it keep their value
shifted one position right; a `lineTo` target is itself preserved
(shifted right by one, behind the inserted point), while a quadratic or
cubic target is replaced by the two cubic points. -/
theorem addNearestSegment_success_frame (layer : PathLayer) (nearest : BezierNearestSegment)
    (layer' : PathLayer)
    (h : addNearestSegment layer nearest = (.ok (), layer')) :
    ∃ n : ℕ, nearest.index = (n : ℤ) ∧ n < layer.controlPoints.length ∧
      layer'.controlPoints.length = layer.controlPoints.length + 1 ∧
      (∀ j, j < n → layer'.controlPoints.get? j = layer.controlPoints.get? j) ∧
      (∀ j, n < j → layer'.controlPoints.get? (j + 1) = layer.controlPoints.get? j) ∧
      ((∃ x y, layer.controlPoints.get? n = some (.lineTo x y)) →
        layer'.controlPoints.get? (n + 1) = layer.controlPoints.get? n) ∧
      ((∀ x y, layer.controlPoints.get? n ≠ some (.lineTo x y)) →
        ∃ c1 c2 c3 c4 c5 c6 d1 d2 d3 d4 d5 d6,
          layer'.controlPoints.get? n = some (.cubicCurveTo c1 c2 c3 c4 c5 c6) ∧
          layer'.controlPoints.get? (n + 1) = some (.cubicCurveTo d1 d2 d3 d4 d5 d6)) := by
  by_cases h0 : nearest.index < 0 ∨ (layer.controlPoints.length : ℤ) ≤ nearest.index
  · rw [addNearestSegment_index_error layer nearest h0] at h
    simp at h
  obtain ⟨cur, hcur⟩ := getZ_some_of_range layer.controlPoints nearest.index h0
  have h0' : 0 ≤ nearest.index ∧ nearest.index < (layer.controlPoints.length : ℤ) := by
    push_neg at h0
    exact ⟨by omega, h0.2⟩
  refine ⟨nearest.index.toNat, by omega, by omega, ?_⟩
  have hget : layer.controlPoints.get? nearest.index.toNat = some cur := by
    rwa [getZ, if_pos h0'.1] at hcur
  have hnle : nearest.index.toNat ≤ layer.controlPoints.length := by omega
  have hnlt : nearest.index.toNat < layer.controlPoints.length := by omega
  cases cur with
  | moveTo x y =>
    rw [addNearestSegment_moveTo_error layer nearest x y h0 hcur] at h
    simp at h
  | closePath =>
    rw [addNearestSegment_closePath_error layer nearest h0 hcur] at h
    simp at h
  | lineTo x2 y2 =>
    cases hprev : prevAnchor (getZ layer.controlPoints (nearest.index - 1)) with
    | none =>
      rw [addNearestSegment_line_adj_error layer nearest x2 y2 h0 hcur hprev] at h
      simp at h
    | some a =>
      rw [addNearestSegment_line_ok layer nearest x2 y2 a h0 hcur hprev] at h
      have hl : layer' = PathLayer.mk layer.translation
          (spliceInsert layer.controlPoints nearest.index.toNat
            (.lineTo (a.x + nearest.t * (x2 - a.x)) (a.y + nearest.t * (y2 - a.y))))
          layer.boundingBoxCache := by
        injection h with h1 h2
        exact h2.symm
      subst hl
      refine ⟨spliceInsert_length _ _ _ hnle, ?_, ?_, ?_, ?_⟩
      · intro j hj
        exact spliceInsert_get?_lt _ _ _ _ hnle hj
      · intro j hj
        exact spliceInsert_get?_ge _ _ _ _ hnle (by omega)
      · intro _
        rw [spliceInsert_get?_ge _ _ _ _ hnle (le_refl _), hget]
      · intro hbad
        exact absurd hget (hbad x2 y2)
  | quadraticCurveTo x2 y2 cx cy =>
    cases hprev : prevAnchor (getZ layer.controlPoints (nearest.index - 1)) with
    | none =>
      rw [addNearestSegment_quad_adj_error layer nearest x2 y2 cx cy h0 hcur hprev] at h
      simp at h
    | some a =>
      rw [addNearestSegment_quad_ok layer nearest x2 y2 cx cy a h0 hcur hprev] at h
      have hl := (Prod.mk.injEq _ _ _ _ ▸ h : _ ∧ _).2.symm
      subst hl
      refine ⟨spliceReplace2_length _ _ _ _ hnlt, ?_, ?_, ?_, ?_⟩
      · intro j hj
        exact spliceReplace2_get?_lt _ _ _ _ _ hnlt hj
      · intro j hj
        exact spliceReplace2_get?_gt _ _ _ _ _ hnlt hj
      · rintro ⟨x, y, hxy⟩
        rw [hget] at hxy
        cases hxy
      · intro _
        refine ⟨_, _, _, _, _, _, _, _, _, _, _, _,
          spliceReplace2_get?_self _ _ _ _ hnlt, spliceReplace2_get?_succ _ _ _ _ hnlt⟩
  | cubicCurveTo x2 y2 cx1 cy1 cx2 cy2 =>
    cases hprev : prevAnchor (getZ layer.controlPoints (nearest.index - 1)) with
    | none =>
      rw [addNearestSegment_cubic_adj_error layer nearest x2 y2 cx1 cy1 cx2 cy2 h0 hcur hprev] at h
      simp at h
    | some a =>
      rw [addNearestSegment_cubic_ok layer nearest x2 y2 cx1 cy1 cx2 cy2 a h0 hcur hprev] at h
      have hl := (Prod.mk.injEq _ _ _ _ ▸ h : _ ∧ _).2.symm
      subst hl
      refine ⟨spliceReplace2_length _ _ _ _ hnlt, ?_, ?_, ?_, ?_⟩
      · intro j hj
        exact spliceReplace2_get?_lt _ _ _ _ _ hnlt hj
      · intro j hj
        exact spliceReplace2_get?_gt _ _ _ _ _ hnlt hj
      · rintro ⟨x, y, hxy⟩
        rw [hget] at hxy
        cases hxy
      · intro _
        refine ⟨_, _, _, _, _, _, _, _, _, _, _, _,
          spliceReplace2_get?_self _ _ _ _ hnlt, spliceReplace2_get?_succ _ _ _ _ hnlt⟩


/-- Witness for C10 at a concrete line split: splitting the segment into
`(0,0)–(10,0)` at `t = 1/2` gives three points, with the original
`lineTo` preserved one position to the right. -/
theorem addNearestSegment_success_frame_witness :
    (addNearestSegment ⟨⟨0, 0⟩, [.moveTo 0 0, .lineTo 10 0], none⟩
      ⟨1, 1/2⟩).2.controlPoints.length = 2 + 1 ∧
    (addNearestSegment ⟨⟨0, 0⟩, [.moveTo 0 0, .lineTo 10 0], none⟩
      ⟨1, 1/2⟩).2.controlPoints.get? 2 = some (.lineTo 10 0) := by
  have heval := addNearestSegment_line_ok ⟨⟨0, 0⟩, [.moveTo 0 0, .lineTo 10 0], none⟩
    ⟨1, 1/2⟩ 10 0 ⟨0, 0⟩ (by simp) rfl rfl
  obtain ⟨n, hn, -, hlen, -, -, hline, -⟩ :=
    addNearestSegment_success_frame ⟨⟨0, 0⟩, [.moveTo 0 0, .lineTo 10 0], none⟩
      ⟨1, 1/2⟩ _ heval
  have hn' : (1 : ℤ) = (n : ℤ) := hn
  have hn1 : n = 1 := by omega
  subst hn1
  constructor
  · rw [heval]
    exact hlen
  · rw [heval]
    exact hline ⟨10, 0, rfl⟩

/-- The de Casteljau split point `q9` is the Bernstein evaluation of the
cubic at `t`. -/
theorem cubicSplit_left_p3 (b : CubicBezier) (t : ℚ) :
    (cubicSplit b t).left.p3 = cubicPoint b t := by
  simp only [cubicSplit, lerp, cubicPoint, bernstein3, Pt.mk.injEq]
  constructor <;> ring

/-- Claim C3: for a valid quadratic or cubic target with a drawable
predecessor, `addNearestSegment((index, t))` replaces the target with
two cubic points: the first runs from the (untouched) original
predecessor anchor to the split point, the second from the split point
to the original endpoint, which is reproduced exactly; and the shared
split point equals `pointForNearestSegment((index, t))` evaluated before
the split.  Over the exact rational embedding the split point matches
the pre-split evaluation exactly, which is stronger than the claimed
`1e-6` tolerance. -/
theorem addNearestSegment_split_exactness (layer : PathLayer) (nearest : BezierNearestSegment)
    (a : Pt) (curve : CubicBezier) (layer' : PathLayer)
    (h0 : ¬(nearest.index < 0 ∨ (layer.controlPoints.length : ℤ) ≤ nearest.index))
    (hprev : prevAnchor (getZ layer.controlPoints (nearest.index - 1)) = some a)
    (hcur : (∃ x2 y2 cx cy, getZ layer.controlPoints nearest.index =
        some (.quadraticCurveTo x2 y2 cx cy) ∧ curve = quadraticToCubic a.x a.y cx cy x2 y2) ∨
      (∃ x2 y2 cx1 cy1 cx2 cy2, getZ layer.controlPoints nearest.index =
        some (.cubicCurveTo x2 y2 cx1 cy1 cx2 cy2) ∧
        curve = ⟨a, ⟨cx1, cy1⟩, ⟨cx2, cy2⟩, ⟨x2, y2⟩⟩))
    (hrun : addNearestSegment layer nearest = (.ok (), layer')) :
    pointForNearestSegment layer nearest = .ok (cubicPoint curve nearest.t) ∧
    getZ layer'.controlPoints (nearest.index - 1) =
      getZ layer.controlPoints (nearest.index - 1) ∧
    (∃ c1 c2 c3 c4, layer'.controlPoints.get? nearest.index.toNat =
      some (.cubicCurveTo (cubicPoint curve nearest.t).x (cubicPoint curve nearest.t).y
        c1 c2 c3 c4)) ∧
    (∃ cur₀ x2 y2 d1 d2 d3 d4, getZ layer.controlPoints nearest.index = some cur₀ ∧
      anchorOf cur₀ = some ⟨x2, y2⟩ ∧
      layer'.controlPoints.get? (nearest.index.toNat + 1) =
        some (.cubicCurveTo x2 y2 d1 d2 d3 d4)) := by
  have h0' : 0 ≤ nearest.index ∧ nearest.index < (layer.controlPoints.length : ℤ) := by
    push_neg at h0
    exact ⟨by omega, h0.2⟩
  have hnlt : nearest.index.toNat < layer.controlPoints.length := by omega
  have hprev1 : 1 ≤ nearest.index := by
    by_contra hlt
    rw [getZ, if_neg (by omega)] at hprev
    cases hprev
  rcases hcur with ⟨x2, y2, cx, cy, hq, hc⟩ | ⟨x2, y2, cx1, cy1, cx2, cy2, hq, hc⟩
  · rw [addNearestSegment_quad_ok layer nearest x2 y2 cx cy a h0 hq hprev, ← hc] at hrun
    have hl := (Prod.mk.injEq _ _ _ _ ▸ hrun : _ ∧ _).2.symm
    subst hl
    have hpf := pointForNearestSegment_quad layer nearest x2 y2 cx cy a h0 hq hprev
    rw [← hc] at hpf
    refine ⟨hpf, ?_, ?_, ?_⟩
    · show getZ (spliceReplace2 _ _ _ _) _ = _
      have hge : (0 : ℤ) ≤ nearest.index - 1 := by omega
      rw [getZ, getZ, if_pos hge, if_pos hge]
      apply spliceReplace2_get?_lt
      · exact hnlt
      · omega
    · refine ⟨(cubicSplit curve nearest.t).left.p1.x, (cubicSplit curve nearest.t).left.p1.y,
        (cubicSplit curve nearest.t).left.p2.x, (cubicSplit curve nearest.t).left.p2.y, ?_⟩
      show (spliceReplace2 _ _ _ _).get? _ = _
      rw [spliceReplace2_get?_self _ _ _ _ hnlt, cubicSplit_left_p3]
    · refine ⟨.quadraticCurveTo x2 y2 cx cy, x2, y2,
        (cubicSplit curve nearest.t).right.p1.x, (cubicSplit curve nearest.t).right.p1.y,
        (cubicSplit curve nearest.t).right.p2.x, (cubicSplit curve nearest.t).right.p2.y,
        hq, rfl, ?_⟩
      show (spliceReplace2 _ _ _ _).get? _ = _
      rw [spliceReplace2_get?_succ _ _ _ _ hnlt]
  · rw [addNearestSegment_cubic_ok layer nearest x2 y2 cx1 cy1 cx2 cy2 a h0 hq hprev,
      ← hc] at hrun
    have hl := (Prod.mk.injEq _ _ _ _ ▸ hrun : _ ∧ _).2.symm
    subst hl
    have hpf := pointForNearestSegment_cubic layer nearest x2 y2 cx1 cy1 cx2 cy2 a h0 hq hprev
    rw [← hc] at hpf
    refine ⟨hpf, ?_, ?_, ?_⟩
    · show getZ (spliceReplace2 _ _ _ _) _ = _
      have hge : (0 : ℤ) ≤ nearest.index - 1 := by omega
      rw [getZ, getZ, if_pos hge, if_pos hge]
      apply spliceReplace2_get?_lt
      · exact hnlt
      · omega
    · refine ⟨(cubicSplit curve nearest.t).left.p1.x, (cubicSplit curve nearest.t).left.p1.y,
        (cubicSplit curve nearest.t).left.p2.x, (cubicSplit curve nearest.t).left.p2.y, ?_⟩
      show (spliceReplace2 _ _ _ _).get? _ = _
      rw [spliceReplace2_get?_self _ _ _ _ hnlt, cubicSplit_left_p3]
    · refine ⟨.cubicCurveTo x2 y2 cx1 cy1 cx2 cy2, x2, y2,
        (cubicSplit curve nearest.t).right.p1.x, (cubicSplit curve nearest.t).right.p1.y,
        (cubicSplit curve nearest.t).right.p2.x, (cubicSplit curve nearest.t).right.p2.y,
        hq, rfl, ?_⟩
      show (spliceReplace2 _ _ _ _).get? _ = _
      rw [spliceReplace2_get?_succ _ _ _ _ hnlt]


/-- Witness for C3: splitting the quadratic segment from `(0,0)` to
`(2,0)` with control `(1,2)` at `t = 1/2`.  The split point is `(1,1)`,
reproduced exactly by both the pre-split evaluation and the first
replacement cubic; the second replacement cubic ends at the original
endpoint `(2,0)`. -/
theorem addNearestSegment_split_exactness_witness :
    pointForNearestSegment ⟨⟨0, 0⟩, [.moveTo 0 0, .quadraticCurveTo 2 0 1 2], none⟩
      ⟨1, 1/2⟩ = .ok ⟨1, 1⟩ ∧
    (addNearestSegment ⟨⟨0, 0⟩, [.moveTo 0 0, .quadraticCurveTo 2 0 1 2], none⟩
      ⟨1, 1/2⟩).2.controlPoints =
      [.moveTo 0 0, .cubicCurveTo 1 1 (1/3) (2/3) (2/3) 1,
        .cubicCurveTo 2 0 (4/3) 1 (5/3) (2/3)] := by
  have heval := addNearestSegment_quad_ok ⟨⟨0, 0⟩, [.moveTo 0 0, .quadraticCurveTo 2 0 1 2], none⟩
    ⟨1, 1/2⟩ 2 0 1 2 ⟨0, 0⟩ (by simp) rfl rfl
  have h := addNearestSegment_split_exactness
    ⟨⟨0, 0⟩, [.moveTo 0 0, .quadraticCurveTo 2 0 1 2], none⟩ ⟨1, 1/2⟩ ⟨0, 0⟩
    (quadraticToCubic 0 0 1 2 2 0) _ (by simp) rfl (.inl ⟨2, 0, 1, 2, rfl, rfl⟩) heval
  constructor
  · rw [h.1]
    simp only [cubicPoint, bernstein3, quadraticToCubic, Pt.mk.injEq, Except.ok.injEq]
    norm_num
  · rw [heval]
    simp only [spliceReplace2, cubicSplit, lerp, quadraticToCubic]
    norm_num


/-- Evaluation of the concrete square-root stand-in on a rational whose
numerator and denominator are perfect squares. -/
theorem ratSqrt_eval (a b : ℕ) (q : ℚ) (h1 : q.num = ((a * a : ℕ) : ℤ))
    (h2 : q.den = b * b) : ratSqrt q = (a : ℚ) / (b : ℚ) := by
  rw [ratSqrt, h1, h2, Int.toNat_natCast, Nat.sqrt_eq, Nat.sqrt_eq]

theorem ratSqrt_100 : ratSqrt 100 = 10 := by
  rw [ratSqrt_eval 10 1 100 (by norm_num) (by norm_num)]
  norm_num

theorem ratSqrt_25 : ratSqrt 25 = 5 := by
  rw [ratSqrt_eval 5 1 25 (by norm_num) (by norm_num)]
  norm_num

theorem ratSqrt_9 : ratSqrt 9 = 3 := by
  rw [ratSqrt_eval 3 1 9 (by norm_num) (by norm_num)]
  norm_num

/-- Claim C2 (refuted at this input — code bug): `closestSegment` is
specified to return `t ∈ [0,1]`, but in the `lineTo` branch the source
clamps the projection parameter only for the distance computation and
stores the unclamped `t` in the result.  Querying the path
`[moveTo (0,0), lineTo (10,0)]` at `(15,0)` with threshold `10` accepts
the segment — the distance to the clamped endpoint is `5 ≤ 10` — yet
reports `t = 3/2 ∉ [0,1]`. -/
theorem closestSegment_line_t_unclamped :
    closestSegment ratSqrt (fun _ _ => ⟨0, 0⟩)
      ⟨⟨0, 0⟩, [.moveTo 0 0, .lineTo 10 0], none⟩ ⟨15, 0⟩ 10 =
      some ⟨1, 3/2⟩ ∧ ¬((3 : ℚ)/2 ≤ 1) := by
  constructor
  · rw [closestSegment]
    simp only [closestLoop, segmentCandidate, prevAnchor, anchorOf, Option.bind]
    norm_num [ratSqrt_100, ratSqrt_25]
  · norm_num


/-- `addNearestSegment` never touches the cached bounding box: neither
on failure (no mutation at all) nor on success (the splice writes only
`controlPoints`). -/
theorem addNearestSegment_cache_eq (layer : PathLayer) (nearest : BezierNearestSegment) :
    (addNearestSegment layer nearest).2.boundingBoxCache = layer.boundingBoxCache := by
  rw [addNearestSegment]
  dsimp only
  repeat' split
  all_goals rfl

/-- Claim C6 (counterexample — the claim is false on the code):
`addNearestSegment` mutates the stored array in place through `splice`
without invalidating `_boundingBox`, so a `boundingBox` read after it
returns the stale pre-split box.  Concretely: cache the box of
`[moveTo (0,0), lineTo (10,0)]` (which is `0,0,10,0`), split the line at
`t = 3/2` (a value `closestSegment` itself can produce, see C2) —
inserting the point `(15,0)` — and read again: the getter still reports
`0,0,10,0` although recomputing from the stored sequence gives
`0,0,15,0`. -/
theorem boundingBox_stale_after_addNearestSegment :
    (boundingBoxRead ratSqrt ((addNearestSegment
        (boundingBoxRead ratSqrt ⟨⟨0, 0⟩, [.moveTo 0 0, .lineTo 10 0], none⟩).2
        ⟨1, 3/2⟩).2)).1 = ⟨0, 0, 10, 0⟩ ∧
    calcBoundingBox ratSqrt ((addNearestSegment
        (boundingBoxRead ratSqrt ⟨⟨0, 0⟩, [.moveTo 0 0, .lineTo 10 0], none⟩).2
        ⟨1, 3/2⟩).2).controlPoints = ⟨0, 0, 15, 0⟩ ∧
    (⟨0, 0, 10, 0⟩ : AABB) ≠ ⟨0, 0, 15, 0⟩ := by
  have h1 : boundingBoxRead ratSqrt ⟨⟨0, 0⟩, [.moveTo 0 0, .lineTo 10 0], none⟩ =
      (⟨0, 0, 10, 0⟩, ⟨⟨0, 0⟩, [.moveTo 0 0, .lineTo 10 0], some ⟨0, 0, 10, 0⟩⟩) := by
    rw [boundingBoxRead]
    norm_num [calcBoundingBox, bboxStep, addBB]
  have h2 : addNearestSegment ⟨⟨0, 0⟩, [.moveTo 0 0, .lineTo 10 0], some ⟨0, 0, 10, 0⟩⟩
      ⟨1, 3/2⟩ =
      (.ok (), ⟨⟨0, 0⟩, [.moveTo 0 0, .lineTo 15 0, .lineTo 10 0], some ⟨0, 0, 10, 0⟩⟩) := by
    rw [addNearestSegment_line_ok ⟨⟨0, 0⟩, [.moveTo 0 0, .lineTo 10 0], some ⟨0, 0, 10, 0⟩⟩
      ⟨1, 3/2⟩ 10 0 ⟨0, 0⟩ (by simp) rfl rfl]
    norm_num [spliceInsert]
  rw [h1]
  rw [show (((⟨0, 0, 10, 0⟩, ⟨⟨0, 0⟩, [.moveTo 0 0, .lineTo 10 0], some ⟨0, 0, 10, 0⟩⟩) :
    AABB × PathLayer)).2 = ⟨⟨0, 0⟩, [.moveTo 0 0, .lineTo 10 0], some ⟨0, 0, 10, 0⟩⟩ from rfl, h2]
  refine ⟨?_, ?_, by norm_num [AABB.mk.injEq]⟩
  · norm_num [boundingBoxRead]
  · norm_num [calcBoundingBox, bboxStep, addBB]

/-- Claim C6 (amended): whole-sequence replacement through the
`controlPoints` setter invalidates the cached bounding box, and a
`boundingBox` read right after a setter write always reflects the new
sequence; but the setter is *not* the only mutation channel —
`addNearestSegment` splices the stored array in place and leaves the
cache untouched, so reads after it can be stale (see the
counterexample). -/
theorem setControlPoints_boundingBox_fresh (sqrtFn : ℚ → ℚ) (layer : PathLayer)
    (value : List (BezierControlPoint ℚ)) (nearest : BezierNearestSegment) :
    (setControlPoints layer value).boundingBoxCache = none ∧
    (boundingBoxRead sqrtFn (setControlPoints layer value)).1 =
      ⟨(calcBoundingBox sqrtFn value).x + layer.translation.x,
        (calcBoundingBox sqrtFn value).y + layer.translation.y,
        (calcBoundingBox sqrtFn value).width, (calcBoundingBox sqrtFn value).height⟩ ∧
    (boundingBoxRead sqrtFn (setControlPoints layer value)).2.controlPoints = value ∧
    (addNearestSegment layer nearest).2.boundingBoxCache = layer.boundingBoxCache := by
  exact ⟨rfl, rfl, rfl, addNearestSegment_cache_eq layer nearest⟩

/-- Claim C7 (counterexample — the claim is false on the code):
`pointForNearestSegment` does *not* shift its result by the translation
offset.  With translation `(5,0)` and the line `(0,0)–(10,0)`, the
midpoint query returns the model-space point `(5,0)`, not the shifted
`(10,0)`; the renderer applies the offset itself via
`ctx.translate(...)` before drawing the returned point. -/
theorem pointForNearestSegment_not_translated :
    pointForNearestSegment ⟨⟨5, 0⟩, [.moveTo 0 0, .lineTo 10 0], none⟩ ⟨1, 1/2⟩ =
      .ok ⟨5, 0⟩ ∧
    ((⟨5, 0⟩ : Pt) ≠ ⟨5 + 5, 0 + 0⟩) := by
  constructor
  · rw [pointForNearestSegment_line ⟨⟨5, 0⟩, [.moveTo 0 0, .lineTo 10 0], none⟩ ⟨1, 1/2⟩
      10 0 ⟨0, 0⟩ (by simp) rfl rfl]
    norm_num
  · intro h
    rw [Pt.mk.injEq] at h
    norm_num at h

/-- Claim C7 (amended): the translation offset is applied post-hoc to
`boundingBox` (model-space box shifted by `(tx, ty)`) and to
`closestSegment` (the query point is moved into model space, so the
result equals the untranslated model queried at `q − (tx, ty)`);
`pointForNearestSegment` ignores the translation entirely and returns
the model-space evaluation (callers shift it themselves); and no query
mutates the stored control points. -/
theorem translation_posthoc (sqrtFn : ℚ → ℚ) (proj : CubicBezier → Pt → Projection)
    (layer : PathLayer) (q : Pt) (threshold : ℚ) (seg : BezierNearestSegment) :
    ((boundingBoxRead sqrtFn layer).1.x =
        (boundingBoxRead sqrtFn ⟨⟨0, 0⟩, layer.controlPoints, layer.boundingBoxCache⟩).1.x +
          layer.translation.x ∧
      (boundingBoxRead sqrtFn layer).1.y =
        (boundingBoxRead sqrtFn ⟨⟨0, 0⟩, layer.controlPoints, layer.boundingBoxCache⟩).1.y +
          layer.translation.y ∧
      (boundingBoxRead sqrtFn layer).1.width =
        (boundingBoxRead sqrtFn ⟨⟨0, 0⟩, layer.controlPoints, layer.boundingBoxCache⟩).1.width ∧
      (boundingBoxRead sqrtFn layer).1.height =
        (boundingBoxRead sqrtFn ⟨⟨0, 0⟩, layer.controlPoints, layer.boundingBoxCache⟩).1.height) ∧
    closestSegment sqrtFn proj layer q threshold =
      closestSegment sqrtFn proj ⟨⟨0, 0⟩, layer.controlPoints, layer.boundingBoxCache⟩
        ⟨q.x - layer.translation.x, q.y - layer.translation.y⟩ threshold ∧
    pointForNearestSegment layer seg =
      pointForNearestSegment ⟨⟨0, 0⟩, layer.controlPoints, layer.boundingBoxCache⟩ seg ∧
    (boundingBoxRead sqrtFn layer).2.controlPoints = layer.controlPoints := by
  refine ⟨⟨?_, ?_, ?_, ?_⟩, ?_, rfl, rfl⟩
  · simp [boundingBoxRead]
  · simp [boundingBoxRead]
  · simp [boundingBoxRead]
  · simp [boundingBoxRead]
  · simp [closestSegment, sub_zero]


/-! ### Bounding-box containment (C4) -/

theorem foldl_min_le_init (vs : List ℚ) : ∀ v : ℚ, vs.foldl min v ≤ v := by
  induction vs with
  | nil => intro v; exact le_refl v
  | cons w ws ih => intro v; exact le_trans (ih (min v w)) (min_le_left _ _)

theorem foldl_max_ge_init (vs : List ℚ) : ∀ v : ℚ, v ≤ vs.foldl max v := by
  induction vs with
  | nil => intro v; exact le_refl v
  | cons w ws ih => intro v; exact le_trans (le_max_left _ _) (ih (max v w))

theorem foldl_min_le (vs : List ℚ) : ∀ (v x : ℚ), x ∈ v :: vs → vs.foldl min v ≤ x := by
  induction vs with
  | nil =>
    intro v x hx
    rcases List.mem_cons.mp hx with h | h
    · rw [h]; exact le_refl v
    · cases h
  | cons w ws ih =>
    intro v x hx
    rcases List.mem_cons.mp hx with h | h
    · rw [h]
      exact le_trans (foldl_min_le_init ws (min v w)) (min_le_left _ _)
    · rcases List.mem_cons.mp h with h' | h'
      · rw [h']
        exact le_trans (foldl_min_le_init ws (min v w)) (min_le_right _ _)
      · exact ih (min v w) x (List.mem_cons.mpr (.inr h'))

theorem le_foldl_max (vs : List ℚ) : ∀ (v x : ℚ), x ∈ v :: vs → x ≤ vs.foldl max v := by
  induction vs with
  | nil =>
    intro v x hx
    rcases List.mem_cons.mp hx with h | h
    · rw [h]; exact le_refl v
    · cases h
  | cons w ws ih =>
    intro v x hx
    rcases List.mem_cons.mp hx with h | h
    · rw [h]
      exact le_trans (le_max_left _ _) (foldl_max_ge_init ws (max v w))
    · rcases List.mem_cons.mp h with h' | h'
      · rw [h']
        exact le_trans (le_max_right _ _) (foldl_max_ge_init ws (max v w))
      · exact ih (max v w) x (List.mem_cons.mpr (.inr h'))

theorem minmaxOf_bounds (l : List ℚ) (x : ℚ) (hx : x ∈ l) :
    (minmaxOf l).1 ≤ x ∧ x ≤ (minmaxOf l).2 := by
  cases l with
  | nil => cases hx
  | cons v vs => exact ⟨foldl_min_le vs v x hx, le_foldl_max vs v x hx⟩

/-- `getminmax` brackets the evaluation at `t = 1` (forced into the
candidate list by the source). -/
theorem getminmax_bounds_one (f : ℚ → ℚ) (ts : List ℚ) :
    (getminmax f ts).1 ≤ f 1 ∧ f 1 ≤ (getminmax f ts).2 := by
  rw [getminmax]
  apply minmaxOf_bounds
  apply List.mem_map_of_mem
  by_cases h : (1 : ℚ) ∈ (if (0 : ℚ) ∈ ts then ts else 0 :: ts)
  · rw [if_pos h]; exact h
  · rw [if_neg h]
    exact List.mem_append.mpr (.inr (List.mem_singleton.mpr rfl))

theorem bernstein3_one (p0 p1 p2 p3 : ℚ) : bernstein3 p0 p1 p2 p3 1 = p3 := by
  rw [bernstein3]; ring

/-- One `bboxStep` keeps every bound already in the accumulator. -/
theorem bboxStep_mono (sqrtFn : ℚ → ℚ) (acc : Option BBAcc) (p : BezierControlPoint ℚ)
    (bb : BBAcc) (hacc : acc = some bb) :
    ∃ bb', bboxStep sqrtFn acc p = some bb' ∧ bb'.minX ≤ bb.minX ∧ bb'.minY ≤ bb.minY ∧
      bb.maxX ≤ bb'.maxX ∧ bb.maxY ≤ bb'.maxY := by
  subst hacc
  cases p with
  | closePath => exact ⟨bb, rfl, le_refl _, le_refl _, le_refl _, le_refl _⟩
  | moveTo x y =>
    exact ⟨_, rfl, min_le_left _ _, min_le_left _ _, le_max_left _ _, le_max_left _ _⟩
  | lineTo x y =>
    exact ⟨_, rfl, min_le_left _ _, min_le_left _ _, le_max_left _ _, le_max_left _ _⟩
  | quadraticCurveTo x y cx cy =>
    exact ⟨_, rfl, min_le_left _ _, min_le_left _ _, le_max_left _ _, le_max_left _ _⟩
  | cubicCurveTo x y cx1 cy1 cx2 cy2 =>
    exact ⟨_, rfl, min_le_left _ _, min_le_left _ _, le_max_left _ _, le_max_left _ _⟩

/-- The whole fold keeps every bound already in the accumulator. -/
theorem bboxFold_mono (sqrtFn : ℚ → ℚ) (pts : List (BezierControlPoint ℚ)) :
    ∀ (acc : Option BBAcc) (bb : BBAcc), acc = some bb →
    ∃ bb', pts.foldl (bboxStep sqrtFn) acc = some bb' ∧ bb'.minX ≤ bb.minX ∧
      bb'.minY ≤ bb.minY ∧ bb.maxX ≤ bb'.maxX ∧ bb.maxY ≤ bb'.maxY := by
  induction pts with
  | nil =>
    intro acc bb hacc
    exact ⟨bb, hacc, le_refl _, le_refl _, le_refl _, le_refl _⟩
  | cons q rest ih =>
    intro acc bb hacc
    obtain ⟨bb₁, h₁, h₁a, h₁b, h₁c, h₁d⟩ := bboxStep_mono sqrtFn acc q bb hacc
    obtain ⟨bb₂, h₂, h₂a, h₂b, h₂c, h₂d⟩ := ih (bboxStep sqrtFn acc q) bb₁ h₁
    exact ⟨bb₂, h₂, le_trans h₂a h₁a, le_trans h₂b h₁b, le_trans h₁c h₂c, le_trans h₁d h₂d⟩

/-- One `bboxStep` on a point with an anchor produces an accumulator
bracketing that anchor.  For curve points this holds because the
(buggily self-anchored) curve's `t = 1` evaluation is the point's own
anchor and `getminmax` always evaluates at `t = 1`. -/
theorem bboxStep_anchor (sqrtFn : ℚ → ℚ) (acc : Option BBAcc) (p : BezierControlPoint ℚ)
    (a : Pt) (ha : anchorOf p = some a) :
    ∃ bb', bboxStep sqrtFn acc p = some bb' ∧ bb'.minX ≤ a.x ∧ a.x ≤ bb'.maxX ∧
      bb'.minY ≤ a.y ∧ a.y ≤ bb'.maxY := by
  cases p with
  | closePath => cases ha
  | moveTo x y =>
    cases ha
    cases acc with
    | none =>
      refine ⟨_, rfl, le_refl _, ?_, le_refl _, ?_⟩ <;> simp
    | some bb =>
      refine ⟨_, rfl, min_le_right _ _, ?_, min_le_right _ _, ?_⟩
      · calc (x : ℚ) = x + 0 := by ring
          _ ≤ max bb.maxX (x + 0) := le_max_right _ _
      · calc (y : ℚ) = y + 0 := by ring
          _ ≤ max bb.maxY (y + 0) := le_max_right _ _
  | lineTo x y =>
    cases ha
    cases acc with
    | none =>
      refine ⟨_, rfl, le_refl _, ?_, le_refl _, ?_⟩ <;> simp
    | some bb =>
      refine ⟨_, rfl, min_le_right _ _, ?_, min_le_right _ _, ?_⟩
      · calc (x : ℚ) = x + 0 := by ring
          _ ≤ max bb.maxX (x + 0) := le_max_right _ _
      · calc (y : ℚ) = y + 0 := by ring
          _ ≤ max bb.maxY (y + 0) := le_max_right _ _
  | quadraticCurveTo x y cx cy =>
    cases ha
    have hx := getminmax_bounds_one
      (fun t => bernstein3 (quadraticToCubic x y cx cy x y).p0.x
        (quadraticToCubic x y cx cy x y).p1.x (quadraticToCubic x y cx cy x y).p2.x
        (quadraticToCubic x y cx cy x y).p3.x t)
      (cubicExtrema sqrtFn (quadraticToCubic x y cx cy x y).p0.x
        (quadraticToCubic x y cx cy x y).p1.x (quadraticToCubic x y cx cy x y).p2.x
        (quadraticToCubic x y cx cy x y).p3.x)
    have hy := getminmax_bounds_one
      (fun t => bernstein3 (quadraticToCubic x y cx cy x y).p0.y
        (quadraticToCubic x y cx cy x y).p1.y (quadraticToCubic x y cx cy x y).p2.y
        (quadraticToCubic x y cx cy x y).p3.y t)
      (cubicExtrema sqrtFn (quadraticToCubic x y cx cy x y).p0.y
        (quadraticToCubic x y cx cy x y).p1.y (quadraticToCubic x y cx cy x y).p2.y
        (quadraticToCubic x y cx cy x y).p3.y)
    simp only [bernstein3_one] at hx hy
    show ∃ bb', bboxAddCurve sqrtFn acc (quadraticToCubic x y cx cy x y) = some bb' ∧ _
    rw [bboxAddCurve]
    cases acc with
    | none =>
      refine ⟨_, rfl, hx.1, ?_, hy.1, ?_⟩
      · calc (x : ℚ) ≤ _ := hx.2
          _ = _ + (_ - _) := by ring
      · calc (y : ℚ) ≤ _ := hy.2
          _ = _ + (_ - _) := by ring
    | some bb =>
      refine ⟨_, rfl, le_trans (min_le_right _ _) hx.1, ?_,
        le_trans (min_le_right _ _) hy.1, ?_⟩
      · calc (x : ℚ) ≤ _ := hx.2
          _ = _ + (_ - _) := by ring
          _ ≤ max bb.maxX _ := le_max_right _ _
      · calc (y : ℚ) ≤ _ := hy.2
          _ = _ + (_ - _) := by ring
          _ ≤ max bb.maxY _ := le_max_right _ _
  | cubicCurveTo x y cx1 cy1 cx2 cy2 =>
    cases ha
    have hx := getminmax_bounds_one (fun t => bernstein3 x cx1 cx2 x t)
      (cubicExtrema sqrtFn x cx1 cx2 x)
    have hy := getminmax_bounds_one (fun t => bernstein3 y cy1 cy2 y t)
      (cubicExtrema sqrtFn y cy1 cy2 y)
    simp only [bernstein3_one] at hx hy
    show ∃ bb', bboxAddCurve sqrtFn acc ⟨⟨x, y⟩, ⟨cx1, cy1⟩, ⟨cx2, cy2⟩, ⟨x, y⟩⟩ = some bb' ∧ _
    rw [bboxAddCurve]
    cases acc with
    | none =>
      refine ⟨_, rfl, hx.1, ?_, hy.1, ?_⟩
      · calc (x : ℚ) ≤ _ := hx.2
          _ = _ + (_ - _) := by ring
      · calc (y : ℚ) ≤ _ := hy.2
          _ = _ + (_ - _) := by ring
    | some bb =>
      refine ⟨_, rfl, le_trans (min_le_right _ _) hx.1, ?_,
        le_trans (min_le_right _ _) hy.1, ?_⟩
      · calc (x : ℚ) ≤ _ := hx.2
          _ = _ + (_ - _) := by ring
          _ ≤ max bb.maxX _ := le_max_right _ _
      · calc (y : ℚ) ≤ _ := hy.2
          _ = _ + (_ - _) := by ring
          _ ≤ max bb.maxY _ := le_max_right _ _

theorem bboxFold_anchor (sqrtFn : ℚ → ℚ) (pts : List (BezierControlPoint ℚ)) :
    ∀ (acc : Option BBAcc) (p : BezierControlPoint ℚ), p ∈ pts →
    ∀ (a : Pt), anchorOf p = some a →
    ∃ bb', pts.foldl (bboxStep sqrtFn) acc = some bb' ∧ bb'.minX ≤ a.x ∧
      a.x ≤ bb'.maxX ∧ bb'.minY ≤ a.y ∧ a.y ≤ bb'.maxY := by
  induction pts with
  | nil =>
    intro acc p hp
    cases hp
  | cons q rest ih =>
    intro acc p hp a ha
    rcases List.mem_cons.mp hp with h | h
    · subst h
      obtain ⟨bb₁, h₁, h₁a, h₁b, h₁c, h₁d⟩ := bboxStep_anchor sqrtFn acc p a ha
      obtain ⟨bb₂, h₂, h₂a, h₂b, h₂c, h₂d⟩ := bboxFold_mono sqrtFn rest _ bb₁ h₁
      exact ⟨bb₂, h₂, le_trans h₂a h₁a, le_trans h₁b h₂c, le_trans h₂b h₁c,
        le_trans h₁d h₂d⟩
    · exact ih (bboxStep sqrtFn acc q) p h a ha

/-- Claim C4 (amended): every anchor coordinate of every control point
lies within the computed bounding box, inclusive.  Control handles need
not lie inside — the source computes the box of the curve itself, not of
the control polygon (see the counterexample). -/
theorem calcBoundingBox_contains_anchors (sqrtFn : ℚ → ℚ)
    (pts : List (BezierControlPoint ℚ)) (p : BezierControlPoint ℚ) (hp : p ∈ pts)
    (a : Pt) (ha : anchorOf p = some a) :
    (calcBoundingBox sqrtFn pts).x ≤ a.x ∧
    a.x ≤ (calcBoundingBox sqrtFn pts).x + (calcBoundingBox sqrtFn pts).width ∧
    (calcBoundingBox sqrtFn pts).y ≤ a.y ∧
    a.y ≤ (calcBoundingBox sqrtFn pts).y + (calcBoundingBox sqrtFn pts).height := by
  obtain ⟨bb', hfold, h1, h2, h3, h4⟩ := bboxFold_anchor sqrtFn pts none p hp a ha
  rw [calcBoundingBox, hfold]
  refine ⟨h1, ?_, h3, ?_⟩
  · calc a.x ≤ bb'.maxX := h2
      _ = bb'.minX + (bb'.maxX - bb'.minX) := by ring
  · calc a.y ≤ bb'.maxY := h4
      _ = bb'.minY + (bb'.maxY - bb'.minY) := by ring

/-- Witness for the amended C4 at a one-point sequence. -/
theorem calcBoundingBox_contains_anchors_witness :
    (calcBoundingBox ratSqrt [.moveTo 5 7]).x ≤ 5 ∧
    (5 : ℚ) ≤ (calcBoundingBox ratSqrt [.moveTo 5 7]).x +
      (calcBoundingBox ratSqrt [.moveTo 5 7]).width ∧
    (calcBoundingBox ratSqrt [.moveTo 5 7]).y ≤ 7 ∧
    (7 : ℚ) ≤ (calcBoundingBox ratSqrt [.moveTo 5 7]).y +
      (calcBoundingBox ratSqrt [.moveTo 5 7]).height :=
  calcBoundingBox_contains_anchors ratSqrt [.moveTo 5 7] (.moveTo 5 7)
    (List.mem_cons_self _ _) ⟨5, 7⟩ rfl

/-- Claim C4 (counterexample): a control handle can lie strictly outside
the computed bounding box.  For `[moveTo (0,0),
cubicCurveTo (x,y) = (1,0), (controlX1,controlY1) = (0,3),
(controlX2,controlY2) = (1,3)]` the computed box is `(0,0)` with width
`1` and height `9/4`, and the handle coordinate `controlY1 = 3` exceeds
`y + height = 9/4`. -/
theorem calcBoundingBox_handle_outside :
    calcBoundingBox ratSqrt [.moveTo 0 0, .cubicCurveTo 1 0 0 3 1 3] = ⟨0, 0, 1, 9/4⟩ ∧
    ¬((3 : ℚ) ≤ 0 + 9/4) := by
  constructor
  · rw [calcBoundingBox]
    norm_num [bboxStep, bboxAddCurve, cubicExtrema, droots3, droots2, getminmax,
      minmaxOf, bernstein3, addBB, List.filter_cons, decide_eq_true_eq, ratSqrt_9,
      min_def, max_def]
  · norm_num


/-! ### The nearest-segment selection rule (C5) -/

theorem candidateAt_ge_length
    (cand2 : Option (BezierControlPoint ℚ) → BezierControlPoint ℚ → Option (ℚ × ℚ))
    (pts : List (BezierControlPoint ℚ)) (j : ℕ) (h : pts.length ≤ j) :
    candidateAt cand2 pts j = none := by
  rw [candidateAt, List.get?_len_le h]
  rfl

theorem loopInv_step (threshold : ℚ)
    (cand2 : Option (BezierControlPoint ℚ) → BezierControlPoint ℚ → Option (ℚ × ℚ))
    (pts : List (BezierControlPoint ℚ)) (i : ℕ)
    (best : Option (ℚ × BezierNearestSegment)) (cur : BezierControlPoint ℚ)
    (best' : Option (ℚ × BezierNearestSegment))
    (hstep : best' = match cand2 (getZ pts ((i : ℤ) - 1)) cur with
      | none => best
      | some (d, t) =>
        match best with
        | none => if d ≤ threshold then some (d, ⟨(i : ℤ), t⟩) else none
        | some (m, r) =>
          if d ≤ threshold ∧ d < m then some (d, ⟨(i : ℤ), t⟩) else some (m, r))
    (hget : pts.get? i = some cur)
    (hinv : loopInv threshold cand2 pts i best) :
    loopInv threshold cand2 pts (i + 1) best' := by
  subst hstep
  have hcAt : candidateAt cand2 pts i = cand2 (getZ pts ((i : ℤ) - 1)) cur := by
    rw [candidateAt, hget]
    rfl
  obtain ⟨hnone, hsome⟩ := hinv
  cases hc : cand2 (getZ pts ((i : ℤ) - 1)) cur with
  | none =>
    constructor
    · intro hb j hj d t hcand
      rcases Nat.lt_succ_iff_lt_or_eq.mp hj with hj' | hj'
      · exact hnone hb j hj' d t hcand
      · subst hj'
        rw [hcAt, hc] at hcand
        cases hcand
    · intro m r hb
      obtain ⟨k, hk, hki, hkc, hkthr, hmin, hstrict⟩ := hsome m r hb
      refine ⟨k, by omega, hki, hkc, hkthr, ?_, hstrict⟩
      intro j hj d t hcand hdthr
      rcases Nat.lt_succ_iff_lt_or_eq.mp hj with hj' | hj'
      · exact hmin j hj' d t hcand hdthr
      · subst hj'
        rw [hcAt, hc] at hcand
        cases hcand
  | some c =>
    obtain ⟨d, t⟩ := c
    cases best with
    | none =>
      show loopInv threshold cand2 pts (i + 1)
        (if d ≤ threshold then some (d, ⟨(i : ℤ), t⟩) else none)
      by_cases hd : d ≤ threshold
      · rw [if_pos hd]
        constructor
        · intro hb; cases hb
        · intro m r hb
          injection hb with hb'
          cases hb'
          refine ⟨i, by omega, rfl, by rw [hcAt, hc], hd, ?_, ?_⟩
          · intro j hj d' t' hcand hdthr
            rcases Nat.lt_succ_iff_lt_or_eq.mp hj with hj' | hj'
            · exact absurd hdthr (hnone rfl j hj' d' t' hcand)
            · subst hj'
              rw [hcAt, hc] at hcand
              injection hcand with h''
              have : d = d' := congrArg Prod.fst h''
              rw [this]
          · intro j hj d' t' hcand hdthr
            exact absurd hdthr (hnone rfl j hj d' t' hcand)
      · rw [if_neg hd]
        constructor
        · intro _ j hj d' t' hcand
          rcases Nat.lt_succ_iff_lt_or_eq.mp hj with hj' | hj'
          · exact hnone rfl j hj' d' t' hcand
          · subst hj'
            rw [hcAt, hc] at hcand
            injection hcand with h''
            have : d = d' := congrArg Prod.fst h''
            rw [← this]
            exact hd
        · intro m r hb
          cases hb
    | some p =>
      obtain ⟨m, r⟩ := p
      show loopInv threshold cand2 pts (i + 1)
        (if d ≤ threshold ∧ d < m then some (d, ⟨(i : ℤ), t⟩) else some (m, r))
      by_cases hd : d ≤ threshold ∧ d < m
      · rw [if_pos hd]
        constructor
        · intro hb; cases hb
        · intro m' r' hb
          injection hb with hb'
          cases hb'
          obtain ⟨k, hk, hki, hkc, hkthr, hmin, hstrict⟩ := hsome m r rfl
          refine ⟨i, by omega, rfl, by rw [hcAt, hc], hd.1, ?_, ?_⟩
          · intro j hj d' t' hcand hdthr
            rcases Nat.lt_succ_iff_lt_or_eq.mp hj with hj' | hj'
            · exact le_trans (le_of_lt hd.2) (hmin j hj' d' t' hcand hdthr)
            · subst hj'
              rw [hcAt, hc] at hcand
              injection hcand with h''
              have : d = d' := congrArg Prod.fst h''
              rw [this]
          · intro j hj d' t' hcand hdthr
            exact lt_of_lt_of_le hd.2 (hmin j hj d' t' hcand hdthr)
      · rw [if_neg hd]
        constructor
        · intro hb; cases hb
        · intro m' r' hb
          injection hb with hb'
          cases hb'
          obtain ⟨k, hk, hki, hkc, hkthr, hmin, hstrict⟩ := hsome m r rfl
          refine ⟨k, by omega, hki, hkc, hkthr, ?_, hstrict⟩
          intro j hj d' t' hcand hdthr
          rcases Nat.lt_succ_iff_lt_or_eq.mp hj with hj' | hj'
          · exact hmin j hj' d' t' hcand hdthr
          · subst hj'
            rw [hcAt, hc] at hcand
            injection hcand with h''
            have hdd : d = d' := congrArg Prod.fst h''
            rw [← hdd]
            rw [← hdd] at hdthr
            exact le_of_not_lt fun hlt => hd ⟨hdthr, hlt⟩

theorem closestLoop_inv (threshold : ℚ)
    (cand2 : Option (BezierControlPoint ℚ) → BezierControlPoint ℚ → Option (ℚ × ℚ))
    (pts : List (BezierControlPoint ℚ)) :
    ∀ (rest : List (BezierControlPoint ℚ)) (i : ℕ)
      (best : Option (ℚ × BezierNearestSegment)),
    rest = pts.drop i → i ≤ pts.length →
    loopInv threshold cand2 pts i best →
    loopInv threshold cand2 pts pts.length
      (closestLoop threshold cand2 rest (getZ pts ((i : ℤ) - 1)) i best) := by
  intro rest
  induction rest with
  | nil =>
    intro i best hdrop hle hinv
    have hlen : pts.length ≤ i := by
      by_contra h
      have := List.drop_eq_nil_iff_le.mp hdrop.symm
      omega
    have hi : i = pts.length := by omega
    rw [closestLoop]
    exact hi ▸ hinv
  | cons cur rest' ih =>
    intro i best hdrop hle hinv
    have hget : pts.get? i = some cur := by
      have h0 := List.get?_drop pts i 0
      rw [← hdrop] at h0
      simpa using h0.symm
    have hlen : i < pts.length := by
      by_contra h
      rw [List.drop_eq_nil_of_le (by omega)] at hdrop
      cases hdrop
    have hdrop' : rest' = pts.drop (i + 1) := by
      have ht := List.tail_drop pts i
      rw [← hdrop] at ht
      simpa using ht
    rw [closestLoop]
    have hprev : (some cur : Option (BezierControlPoint ℚ)) =
        getZ pts (((i + 1 : ℕ) : ℤ) - 1) := by
      rw [getZ, if_pos (by omega)]
      have h1 : ((((i + 1 : ℕ) : ℤ)) - 1).toNat = i := by omega
      rw [h1, hget]
    rw [hprev]
    exact ih (i + 1) _ hdrop' (by omega)
      (loopInv_step threshold cand2 pts i best cur _ rfl hget hinv)

/-- Claim C5: `closestSegment` returns `none` exactly when no drawable
segment's candidate distance is within the threshold; and when it
returns `(index, t)`, that index carries a within-threshold candidate
whose distance is minimal over all drawable segments, and — because a
candidate replaces the running best only when strictly smaller — every
earlier-indexed candidate has strictly greater distance (first-found
tie-breaking), with `t` the parameter that candidate computed. -/
theorem closestSegment_selection_rule (sqrtFn : ℚ → ℚ)
    (proj : CubicBezier → Pt → Projection) (layer : PathLayer) (q : Pt) (threshold : ℚ) :
    (closestSegment sqrtFn proj layer q threshold = none ↔
      ∀ j d t, candidateAt (segmentCandidate sqrtFn proj (q.x - layer.translation.x)
          (q.y - layer.translation.y)) layer.controlPoints j = some (d, t) →
        ¬(d ≤ threshold)) ∧
    (∀ r, closestSegment sqrtFn proj layer q threshold = some r →
      ∃ (n : ℕ) (d : ℚ), r.index = (n : ℤ) ∧
        candidateAt (segmentCandidate sqrtFn proj (q.x - layer.translation.x)
          (q.y - layer.translation.y)) layer.controlPoints n = some (d, r.t) ∧
        d ≤ threshold ∧
        (∀ j d' t', candidateAt (segmentCandidate sqrtFn proj (q.x - layer.translation.x)
          (q.y - layer.translation.y)) layer.controlPoints j = some (d', t') → d ≤ d') ∧
        (∀ j, j < n → ∀ d' t',
          candidateAt (segmentCandidate sqrtFn proj (q.x - layer.translation.x)
            (q.y - layer.translation.y)) layer.controlPoints j = some (d', t') → d < d')) := by
  have hini : loopInv threshold
      (segmentCandidate sqrtFn proj (q.x - layer.translation.x) (q.y - layer.translation.y))
      layer.controlPoints 0 none :=
    ⟨fun _ j hj => absurd hj (Nat.not_lt_zero j), fun m r h => by cases h⟩
  have hz : getZ layer.controlPoints (((0 : ℕ) : ℤ) - 1) =
      (none : Option (BezierControlPoint ℚ)) := by
    rw [getZ, if_neg (by omega)]
  have hrun := closestLoop_inv threshold
    (segmentCandidate sqrtFn proj (q.x - layer.translation.x) (q.y - layer.translation.y))
    layer.controlPoints layer.controlPoints 0 none (by rw [List.drop_zero])
    (Nat.zero_le _) hini
  rw [hz] at hrun
  constructor
  · rw [closestSegment]
    rw [Option.map_eq_none']
    constructor
    · intro hL j d t hcand
      by_cases hj : j < layer.controlPoints.length
      · exact hrun.1 hL j hj d t hcand
      · rw [candidateAt_ge_length _ _ _ (by omega)] at hcand
        cases hcand
    · intro hall
      cases hL : closestLoop threshold
          (segmentCandidate sqrtFn proj (q.x - layer.translation.x)
            (q.y - layer.translation.y)) layer.controlPoints none 0 none with
      | none => rfl
      | some p =>
        obtain ⟨m, r⟩ := p
        obtain ⟨k, hk, hki, hkc, hkthr, -, -⟩ := hrun.2 m r hL
        exact absurd hkthr (hall k m r.t hkc)
  · intro r hr
    rw [closestSegment] at hr
    rw [Option.map_eq_some'] at hr
    obtain ⟨p, hp, hpr⟩ := hr
    obtain ⟨m, r₀⟩ := p
    have hreq : r = r₀ := hpr.symm
    subst hreq
    obtain ⟨k, hk, hki, hkc, hkthr, hmin, hstrict⟩ := hrun.2 m r hp
    refine ⟨k, m, hki, hkc, hkthr, ?_, ?_⟩
    · intro j d' t' hcand
      by_cases hj : j < layer.controlPoints.length
      · by_cases hthr : d' ≤ threshold
        · exact hmin j hj d' t' hcand hthr
        · exact le_trans hkthr (le_of_not_le hthr)
      · rw [candidateAt_ge_length _ _ _ (by omega)] at hcand
        cases hcand
    · intro j hj d' t' hcand
      by_cases hthr : d' ≤ threshold
      · exact hstrict j hj d' t' hcand hthr
      · exact lt_of_le_of_lt hkthr (lt_of_not_le hthr)


/-- Witness for C5 at the spec's Scenario D: on the line `(0,0)–(10,0)`
the query `(5,3)` with threshold `10` selects segment index `1` at
`t = 1/2` with candidate distance `3`. -/
theorem closestSegment_selection_rule_witness :
    closestSegment ratSqrt (fun _ _ => ⟨0, 0⟩)
      ⟨⟨0, 0⟩, [.moveTo 0 0, .lineTo 10 0], none⟩ ⟨5, 3⟩ 10 = some ⟨1, 1/2⟩ ∧
    candidateAt (segmentCandidate ratSqrt (fun _ _ => ⟨0, 0⟩) 5 3)
      [.moveTo 0 0, .lineTo 10 0] 1 = some (3, 1/2) ∧
    (3 : ℚ) ≤ 10 := by
  have heval : closestSegment ratSqrt (fun _ _ => ⟨0, 0⟩)
      ⟨⟨0, 0⟩, [.moveTo 0 0, .lineTo 10 0], none⟩ ⟨5, 3⟩ 10 = some ⟨1, 1/2⟩ := by
    rw [closestSegment]
    simp only [closestLoop, segmentCandidate, prevAnchor, anchorOf, Option.bind]
    norm_num [ratSqrt_100, ratSqrt_9]
  have hcand : candidateAt (segmentCandidate ratSqrt (fun _ _ => ⟨0, 0⟩) 5 3)
      [.moveTo 0 0, .lineTo 10 0] 1 = some (3, 1/2) := by
    norm_num [candidateAt, segmentCandidate, prevAnchor, anchorOf, getZ,
      Option.bind, ratSqrt_100, ratSqrt_9]
  obtain ⟨n, d, hidx, hc2, hthr, -, -⟩ :=
    (closestSegment_selection_rule ratSqrt (fun _ _ => ⟨0, 0⟩)
      ⟨⟨0, 0⟩, [.moveTo 0 0, .lineTo 10 0], none⟩ ⟨5, 3⟩ 10).2 ⟨1, 1/2⟩ heval
  have hn1 : (1 : ℤ) = (n : ℤ) := hidx
  have hn : n = 1 := by omega
  subst hn
  norm_num at hc2
  rw [hcand] at hc2
  injection hc2 with hc2'
  have hd3 : (3 : ℚ) = d := congrArg Prod.fst hc2'
  exact ⟨heval, hcand, hd3 ▸ hthr⟩


/-! ### C1: the SVG path codec round trip -/


theorem isWSChar_of_isSepChar (c : Char) (h : isSepChar c = false) :
    isWSChar c = false :=
  (Bool.or_eq_false_iff.mp h).1

theorem isWSChar_of_isAlphaChar (c : Char) (h : isAlphaChar c = true) :
    isWSChar c = false := by
  cases hw : isWSChar c with
  | false => rfl
  | true =>
    exfalso
    rcases of_decide_eq_true hw with rfl | rfl | rfl | rfl <;> simp [isAlphaChar] at h

theorem dropWhile_append_of_ne {α : Type _} (p : α → Bool) (l₁ l₂ : List α)
    (h : l₁.dropWhile p ≠ []) :
    (l₁ ++ l₂).dropWhile p = l₁.dropWhile p ++ l₂ := by
  induction l₁ with
  | nil => simp [List.dropWhile] at h
  | cons a l ih =>
    cases hpa : p a with
    | true =>
      rw [List.dropWhile_cons, hpa] at h
      simp only [if_true] at h
      rw [List.cons_append, List.dropWhile_cons, hpa, List.dropWhile_cons, hpa]
      simp only [if_true]
      exact ih h
    | false =>
      rw [List.cons_append, List.dropWhile_cons, hpa, List.dropWhile_cons, hpa]
      simp

theorem dropWhile_append_of_eq {α : Type _} (p : α → Bool) (l₁ l₂ : List α)
    (h : l₁.dropWhile p = []) :
    (l₁ ++ l₂).dropWhile p = l₂.dropWhile p := by
  induction l₁ with
  | nil => rfl
  | cons a l ih =>
    cases hpa : p a with
    | true =>
      rw [List.dropWhile_cons, hpa] at h
      simp only [if_true] at h
      rw [List.cons_append, List.dropWhile_cons, hpa]
      simp only [if_true]
      exact ih h
    | false =>
      rw [List.dropWhile_cons, hpa] at h
      simp at h

theorem dropWhile_eq_nil_of_all {α : Type _} (p : α → Bool) (l : List α)
    (h : ∀ x ∈ l, p x = true) : l.dropWhile p = [] := by
  induction l with
  | nil => rfl
  | cons a l ih =>
    rw [List.dropWhile_cons, h a (by simp)]
    simp only [if_true]
    exact ih fun x hx => h x (by simp [hx])

theorem takeWhile_append_stop {α : Type _} (p : α → Bool) (b : List α)
    (hb : ∀ x ∈ b, p x = true) (y : α) (hy : p y = false) (r : List α) :
    (b ++ y :: r).takeWhile p = b ∧ (b ++ y :: r).dropWhile p = y :: r := by
  induction b with
  | nil => simp [List.takeWhile_cons, List.dropWhile_cons, hy]
  | cons a bs ih =>
    have ha := hb a (by simp)
    have ih' := ih fun x hx => hb x (by simp [hx])
    refine ⟨?_, ?_⟩
    · rw [List.cons_append, List.takeWhile_cons, ha]
      simp only [if_true]
      rw [ih'.1]
    · rw [List.cons_append, List.dropWhile_cons, ha]
      simp only [if_true]
      exact ih'.2

theorem takeWhile_eq_self_of_all {α : Type _} (p : α → Bool) (b : List α)
    (hb : ∀ x ∈ b, p x = true) : b.takeWhile p = b := by
  induction b with
  | nil => rfl
  | cons a bs ih =>
    rw [List.takeWhile_cons, hb a (by simp)]
    simp only [if_true]
    rw [ih fun x hx => hb x (by simp [hx])]

theorem head?_append_left {α : Type _} (a b : List α) (h : a ≠ []) :
    (a ++ b).head? = a.head? := by
  cases a with
  | nil => exact absurd rfl h
  | cons x xs => rfl

theorem getLast?_append_right {α : Type _} (a b : List α) (h : b ≠ []) :
    (a ++ b).getLast? = b.getLast? := by
  rw [List.getLast?_append]
  obtain ⟨x, xs, rfl⟩ := List.exists_cons_of_ne_nil h
  cases hg : (x :: xs).getLast? with
  | none => simp [List.getLast?] at hg
  | some c => rfl

theorem jsTrim_nil : jsTrim [] = [] := rfl

theorem jsTrim_cons_ws (c : Char) (hc : isWSChar c = true) (l : List Char) :
    jsTrim (c :: l) = jsTrim l := by
  simp only [jsTrim, List.dropWhile_cons, hc, if_true]

theorem jsTrim_append_ws (a w : List Char) (hw : ∀ c ∈ w, isWSChar c = true) :
    jsTrim (a ++ w) = jsTrim a := by
  by_cases h : a.dropWhile isWSChar = []
  · simp only [jsTrim, dropWhile_append_of_eq _ _ _ h, h,
      dropWhile_eq_nil_of_all _ _ hw]
  · simp only [jsTrim, dropWhile_append_of_ne _ _ _ h, List.reverse_append]
    rw [dropWhile_append_of_eq]
    exact dropWhile_eq_nil_of_all _ _ fun c hc => hw c (by simpa using hc)

theorem jsTrim_all_ws (w : List Char) (hw : ∀ c ∈ w, isWSChar c = true) :
    jsTrim w = [] := by
  have := jsTrim_append_ws [] w hw
  simpa using this

theorem jsTrim_eq_self (u : List Char)
    (hh : ∀ c, u.head? = some c → isWSChar c = false)
    (hl : ∀ c, u.getLast? = some c → isWSChar c = false) :
    jsTrim u = u := by
  cases u with
  | nil => rfl
  | cons c rest =>
    have hc := hh c rfl
    simp only [jsTrim, List.dropWhile_cons, hc]
    simp only [Bool.false_eq_true, if_false]
    cases hr : (c :: rest).reverse with
    | nil => exact absurd (congrArg List.length hr) (by simp)
    | cons d ds =>
      have hd : (c :: rest).getLast? = some d := by
        rw [← List.head?_reverse, hr]; rfl
      rw [List.dropWhile_cons, hl d hd]
      simp only [Bool.false_eq_true, if_false]
      rw [← hr, List.reverse_reverse]

theorem chunks_nil : chunks [] = [] := by rw [chunks]

theorem chunks_cons (c : Char) (rest : List Char) :
    chunks (c :: rest) =
      if isAlphaChar c then
        (c :: rest.takeWhile (fun x => !isAlphaChar x)) ::
          chunks (rest.dropWhile (fun x => !isAlphaChar x))
      else chunks rest := by
  rw [chunks]

theorem splitSepGo_nil (cur : List Char) (b : Bool) :
    splitSepGo cur b [] = [cur.reverse] := rfl

theorem splitSepGo_cons (cur : List Char) (b : Bool) (c : Char) (rest : List Char) :
    splitSepGo cur b (c :: rest) =
      if isSepChar c then
        if b then splitSepGo cur true rest
        else cur.reverse :: splitSepGo [] true rest
      else splitSepGo (c :: cur) false rest := rfl

theorem runChunks_nil (parseNum : List Char → Option ℚ) (st : ParseState) :
    runChunks parseNum st [] = .ok st := rfl

theorem runChunks_cons (parseNum : List Char → Option ℚ) (st : ParseState)
    (chunk : List Char) (rest : List (List Char)) :
    runChunks parseNum st (chunk :: rest) =
      match processChunk parseNum st chunk with
      | .error e => .error e
      | .ok st' => runChunks parseNum st' rest := rfl

theorem processChunk_Z (parseNum : List Char → Option ℚ) (st : ParseState)
    (wsuf : List Char) :
    processChunk parseNum st ('Z' :: wsuf) =
      .ok ⟨st.currentX, st.currentY, st.controlPoints ++ [.closePath]⟩ := rfl

theorem chunks_flatten (ts : List (List Char))
    (h : ∀ t ∈ ts, ∃ c b, t = c :: b ∧ isAlphaChar c = true ∧
        ∀ x ∈ b, isAlphaChar x = false) :
    chunks ts.flatten = ts := by
  induction ts with
  | nil => exact chunks_nil
  | cons t ts ih =>
    obtain ⟨c, b, ht, hc, hb⟩ := h t (by simp)
    subst ht
    have hrest : ∀ t ∈ ts, ∃ c b, t = c :: b ∧ isAlphaChar c = true ∧
        ∀ x ∈ b, isAlphaChar x = false := fun t ht' => h t (by simp [ht'])
    rw [List.join_cons, List.cons_append, chunks_cons, if_pos hc]
    cases ts with
    | nil =>
      simp only [List.flatten_nil, List.append_nil]
      rw [takeWhile_eq_self_of_all _ _ (fun x hx => by simp [hb x hx]),
        dropWhile_eq_nil_of_all _ _ (fun x hx => by simp [hb x hx]), chunks_nil]
    | cons u ts' =>
      obtain ⟨c', b', hu, hc', hb'⟩ := hrest u (by simp)
      rw [List.join_cons, hu, List.cons_append]
      have hstop := takeWhile_append_stop (fun x => !isAlphaChar x) b
        (fun x hx => by simp [hb x hx]) c' (by simp [hc']) (b' ++ ts'.flatten)
      rw [hstop.1, hstop.2, ← List.cons_append, ← hu, ← List.join_cons]
      rw [ih hrest]

theorem joinArgs_single (x : List Char) : joinArgs [x] = x := rfl

theorem joinArgs_cons₂ (x y : List Char) (ys : List (List Char)) :
    joinArgs (x :: y :: ys) = x ++ ' ' :: joinArgs (y :: ys) := rfl

theorem joinArgs_ne_nil (x : List Char) (xs : List (List Char)) (hx : x ≠ []) :
    joinArgs (x :: xs) ≠ [] := by
  cases xs with
  | nil => exact hx
  | cons y ys =>
    rw [joinArgs_cons₂]
    simp

theorem joinArgs_head? (x : List Char) (xs : List (List Char)) (hx : x ≠ []) :
    (joinArgs (x :: xs)).head? = x.head? := by
  cases xs with
  | nil => rfl
  | cons y ys =>
    rw [joinArgs_cons₂]
    exact head?_append_left _ _ hx

theorem joinArgs_getLast? (xs : List (List Char)) (hne : xs ≠ [])
    (h : ∀ x ∈ xs, x ≠ []) :
    ∃ xl ∈ xs, (joinArgs xs).getLast? = xl.getLast? := by
  induction xs with
  | nil => exact absurd rfl hne
  | cons x xs ih =>
    cases xs with
    | nil => exact ⟨x, by simp, rfl⟩
    | cons y ys =>
      obtain ⟨xl, hmem, hlast⟩ := ih (by simp) (fun z hz => h z (by simp [hz]))
      refine ⟨xl, by simp [hmem], ?_⟩
      rw [joinArgs_cons₂, getLast?_append_right]
      · rw [← hlast]
        have : (' ' :: joinArgs (y :: ys)) = [' '] ++ joinArgs (y :: ys) := rfl
        rw [this, getLast?_append_right]
        exact joinArgs_ne_nil y ys (h y (by simp))
      · simp

theorem splitSepGo_nonsep (x : List Char) (hx : ∀ c ∈ x, isSepChar c = false)
    (cur : List Char) (b : Bool) (l : List Char) :
    splitSepGo cur b (x ++ l) =
      splitSepGo (x.reverse ++ cur) (if x.isEmpty then b else false) l := by
  induction x generalizing cur b with
  | nil => simp
  | cons a xs ih =>
    have ha := hx a (by simp)
    rw [List.cons_append, splitSepGo_cons, ha]
    simp only [Bool.false_eq_true, if_false]
    rw [ih (fun c hc => hx c (by simp [hc])) (a :: cur) false]
    simp [List.isEmpty_cons, ite_self]

theorem splitSepGo_joinArgs (xs : List (List Char)) (hne : xs ≠ [])
    (hx : ∀ x ∈ xs, x ≠ [] ∧ ∀ c ∈ x, isSepChar c = false) :
    ∀ b : Bool, splitSepGo [] b (joinArgs xs) = xs := by
  induction xs with
  | nil => exact absurd rfl hne
  | cons x xs ih =>
    intro b
    obtain ⟨hxne, hxsep⟩ := hx x (by simp)
    have hempty : x.isEmpty = false := by
      cases x with
      | nil => exact absurd rfl hxne
      | cons _ _ => rfl
    cases xs with
    | nil =>
      rw [joinArgs_single, ← List.append_nil x,
        splitSepGo_nonsep x hxsep [] b [], hempty]
      simp [splitSepGo_nil]
    | cons y ys =>
      rw [joinArgs_cons₂, splitSepGo_nonsep x hxsep [] b _, hempty]
      simp only [Bool.false_eq_true, if_false, List.append_nil]
      rw [splitSepGo_cons]
      have hsp : isSepChar ' ' = true := rfl
      rw [hsp]
      simp only [if_true, Bool.false_eq_true, if_false, List.reverse_reverse]
      rw [ih (by simp) (fun z hz => hx z (by simp [hz])) true]

theorem splitSep_joinArgs (xs : List (List Char)) (hne : xs ≠ [])
    (hx : ∀ x ∈ xs, x ≠ [] ∧ ∀ c ∈ x, isSepChar c = false) :
    splitSep (joinArgs xs) = xs :=
  splitSepGo_joinArgs xs hne hx false




theorem jsTrim_argstring (xs : List (List Char)) (hne : xs ≠ [])
    (hx : ∀ x ∈ xs, x ≠ [] ∧ ∀ c ∈ x, isSepChar c = false)
    (wsuf : List Char) (hw : ∀ c ∈ wsuf, isWSChar c = true) :
    jsTrim ((' ' :: joinArgs xs) ++ wsuf) = joinArgs xs := by
  rw [List.cons_append, jsTrim_cons_ws ' ' rfl, jsTrim_append_ws _ _ hw]
  obtain ⟨x, xs', rfl⟩ := List.exists_cons_of_ne_nil hne
  apply jsTrim_eq_self
  · intro c hc
    rw [joinArgs_head? x xs' (hx x (by simp)).1] at hc
    have hcx : c ∈ x := List.mem_of_mem_head? (Option.mem_def.mpr hc)
    exact isWSChar_of_isSepChar c ((hx x (by simp)).2 c hcx)
  · intro c hc
    obtain ⟨xl, hmem, hlast⟩ :=
      joinArgs_getLast? (x :: xs') (by simp) (fun z hz => (hx z hz).1)
    rw [hlast] at hc
    have hcx : c ∈ xl := List.mem_of_mem_getLast? (Option.mem_def.mpr hc)
    exact isWSChar_of_isSepChar c ((hx xl hmem).2 c hcx)

theorem processChunk_tokenCore (parseNum : List Char → Option ℚ)
    (fmt : ℚ → List Char) (st : ParseState) (cp : BezierControlPoint ℚ)
    (wsuf : List Char) (hw : ∀ c ∈ wsuf, isWSChar c = true)
    (hcp : ∀ q ∈ coords cp, goodFmt fmt parseNum q) :
    processChunk parseNum st (tokenCore fmt cp ++ wsuf) = .ok (stepState st cp) := by
  cases cp with
  | closePath => exact processChunk_Z parseNum st wsuf
  | moveTo x y =>
    obtain ⟨hpx, hfx, hcx⟩ := hcp x (by simp [coords])
    obtain ⟨hpy, hfy, hcy⟩ := hcp y (by simp [coords])
    have hsep : ∀ z ∈ [fmt x, fmt y], z ≠ [] ∧ ∀ c ∈ z, isSepChar c = false := by
      intro z hz
      rcases (by simpa using hz : z = fmt x ∨ z = fmt y) with rfl | rfl
      · exact ⟨hfx, fun c hc => (hcx c hc).2⟩
      · exact ⟨hfy, fun c hc => (hcy c hc).2⟩
    have hargs :
        (splitSep (jsTrim ((' ' :: joinArgs [fmt x, fmt y]) ++ wsuf))).map parseNum
          = [some x, some y] := by
      rw [jsTrim_argstring _ (by simp) hsep wsuf hw,
        splitSep_joinArgs _ (by simp) hsep]
      simp [hpx, hpy]
    show processChunk parseNum st ('M' :: ((' ' :: joinArgs [fmt x, fmt y]) ++ wsuf)) = _
    simp only [processChunk, hargs]
    rfl
  | lineTo x y =>
    obtain ⟨hpx, hfx, hcx⟩ := hcp x (by simp [coords])
    obtain ⟨hpy, hfy, hcy⟩ := hcp y (by simp [coords])
    have hsep : ∀ z ∈ [fmt x, fmt y], z ≠ [] ∧ ∀ c ∈ z, isSepChar c = false := by
      intro z hz
      rcases (by simpa using hz : z = fmt x ∨ z = fmt y) with rfl | rfl
      · exact ⟨hfx, fun c hc => (hcx c hc).2⟩
      · exact ⟨hfy, fun c hc => (hcy c hc).2⟩
    have hargs :
        (splitSep (jsTrim ((' ' :: joinArgs [fmt x, fmt y]) ++ wsuf))).map parseNum
          = [some x, some y] := by
      rw [jsTrim_argstring _ (by simp) hsep wsuf hw,
        splitSep_joinArgs _ (by simp) hsep]
      simp [hpx, hpy]
    show processChunk parseNum st ('L' :: ((' ' :: joinArgs [fmt x, fmt y]) ++ wsuf)) = _
    simp only [processChunk, hargs]
    rfl
  | quadraticCurveTo x y cx cy =>
    obtain ⟨hpx, hfx, hcx'⟩ := hcp x (by simp [coords])
    obtain ⟨hpy, hfy, hcy'⟩ := hcp y (by simp [coords])
    obtain ⟨hpcx, hfcx, hccx⟩ := hcp cx (by simp [coords])
    obtain ⟨hpcy, hfcy, hccy⟩ := hcp cy (by simp [coords])
    have hsep : ∀ z ∈ [fmt cx, fmt cy, fmt x, fmt y],
        z ≠ [] ∧ ∀ c ∈ z, isSepChar c = false := by
      intro z hz
      rcases (by simpa using hz : z = fmt cx ∨ z = fmt cy ∨ z = fmt x ∨ z = fmt y) with
        rfl | rfl | rfl | rfl
      · exact ⟨hfcx, fun c hc => (hccx c hc).2⟩
      · exact ⟨hfcy, fun c hc => (hccy c hc).2⟩
      · exact ⟨hfx, fun c hc => (hcx' c hc).2⟩
      · exact ⟨hfy, fun c hc => (hcy' c hc).2⟩
    have hargs :
        (splitSep (jsTrim ((' ' :: joinArgs [fmt cx, fmt cy, fmt x, fmt y]) ++ wsuf))).map
            parseNum = [some cx, some cy, some x, some y] := by
      rw [jsTrim_argstring _ (by simp) hsep wsuf hw,
        splitSep_joinArgs _ (by simp) hsep]
      simp [hpx, hpy, hpcx, hpcy]
    show processChunk parseNum st
      ('Q' :: ((' ' :: joinArgs [fmt cx, fmt cy, fmt x, fmt y]) ++ wsuf)) = _
    simp only [processChunk, hargs]
    rfl
  | cubicCurveTo x y c1x c1y c2x c2y =>
    obtain ⟨hpx, hfx, hcx'⟩ := hcp x (by simp [coords])
    obtain ⟨hpy, hfy, hcy'⟩ := hcp y (by simp [coords])
    obtain ⟨hp1x, hf1x, hc1x⟩ := hcp c1x (by simp [coords])
    obtain ⟨hp1y, hf1y, hc1y⟩ := hcp c1y (by simp [coords])
    obtain ⟨hp2x, hf2x, hc2x⟩ := hcp c2x (by simp [coords])
    obtain ⟨hp2y, hf2y, hc2y⟩ := hcp c2y (by simp [coords])
    have hsep : ∀ z ∈ [fmt c1x, fmt c1y, fmt c2x, fmt c2y, fmt x, fmt y],
        z ≠ [] ∧ ∀ c ∈ z, isSepChar c = false := by
      intro z hz
      rcases (by simpa using hz :
        z = fmt c1x ∨ z = fmt c1y ∨ z = fmt c2x ∨ z = fmt c2y ∨ z = fmt x ∨ z = fmt y) with
        rfl | rfl | rfl | rfl | rfl | rfl
      · exact ⟨hf1x, fun c hc => (hc1x c hc).2⟩
      · exact ⟨hf1y, fun c hc => (hc1y c hc).2⟩
      · exact ⟨hf2x, fun c hc => (hc2x c hc).2⟩
      · exact ⟨hf2y, fun c hc => (hc2y c hc).2⟩
      · exact ⟨hfx, fun c hc => (hcx' c hc).2⟩
      · exact ⟨hfy, fun c hc => (hcy' c hc).2⟩
    have hargs :
        (splitSep (jsTrim ((' ' ::
            joinArgs [fmt c1x, fmt c1y, fmt c2x, fmt c2y, fmt x, fmt y]) ++ wsuf))).map
            parseNum = [some c1x, some c1y, some c2x, some c2y, some x, some y] := by
      rw [jsTrim_argstring _ (by simp) hsep wsuf hw,
        splitSep_joinArgs _ (by simp) hsep]
      simp [hpx, hpy, hp1x, hp1y, hp2x, hp2y]
    show processChunk parseNum st
      ('C' :: ((' ' :: joinArgs [fmt c1x, fmt c1y, fmt c2x, fmt c2y, fmt x, fmt y]) ++ wsuf)) = _
    simp only [processChunk, hargs]
    rfl

theorem runChunks_append (parseNum : List Char → Option ℚ) (st : ParseState)
    (l₁ l₂ : List (List Char)) :
    runChunks parseNum st (l₁ ++ l₂) =
      match runChunks parseNum st l₁ with
      | .error e => .error e
      | .ok st' => runChunks parseNum st' l₂ := by
  induction l₁ generalizing st with
  | nil => rfl
  | cons c l ih =>
    rw [List.cons_append, runChunks_cons, runChunks_cons]
    cases processChunk parseNum st c with
    | error e => rfl
    | ok st' => exact ih st'

theorem runChunks_tokens (parseNum : List Char → Option ℚ) (fmt : ℚ → List Char)
    (p : List (BezierControlPoint ℚ)) :
    ∀ st : ParseState,
      (∀ q ∈ p.flatMap coords, goodFmt fmt parseNum q) →
      runChunks parseNum st (p.map fun cp => tokenCore fmt cp ++ [' ']) =
        .ok (p.foldl stepState st) := by
  induction p with
  | nil => intro st _; rfl
  | cons cp p ih =>
    intro st hgood
    rw [List.map_cons, runChunks_cons,
      processChunk_tokenCore parseNum fmt st cp [' ']
        (by intro c hc; simp at hc; subst hc; rfl)
        (fun q hq => hgood q (by rw [List.cons_bind]; exact List.mem_append_left _ hq))]
    exact ih (stepState st cp)
      (fun q hq => hgood q (by rw [List.cons_bind]; exact List.mem_append_right _ hq))

theorem foldl_stepState_controlPoints (p : List (BezierControlPoint ℚ)) :
    ∀ st : ParseState,
      (p.foldl stepState st).controlPoints = st.controlPoints ++ p.map (cpMap some) := by
  induction p with
  | nil => intro st; simp
  | cons cp p ih =>
    intro st
    rw [List.foldl_cons, ih, List.map_cons]
    have hstep : (stepState st cp).controlPoints = st.controlPoints ++ [cpMap some cp] := by
      cases cp <;> rfl
    rw [hstep, List.append_assoc]
    rfl




theorem mem_joinArgs (xs : List (List Char)) (c : Char) (hc : c ∈ joinArgs xs) :
    c = ' ' ∨ ∃ x ∈ xs, c ∈ x := by
  induction xs with
  | nil =>
    exact absurd hc (List.not_mem_nil c)
  | cons x xs ih =>
    cases xs with
    | nil => exact .inr ⟨x, by simp, hc⟩
    | cons y ys =>
      rw [joinArgs_cons₂] at hc
      rcases List.mem_append.mp hc with h | h
      · exact .inr ⟨x, by simp, h⟩
      · rcases List.mem_cons.mp h with rfl | h
        · exact .inl rfl
        · rcases ih h with h | ⟨z, hz, hcz⟩
          · exact .inl h
          · exact .inr ⟨z, by simp [hz], hcz⟩

theorem argToken_alpha_free (ch : Char) (hch : isAlphaChar ch = true)
    (xs : List (List Char)) (hx : ∀ x ∈ xs, ∀ c ∈ x, isAlphaChar c = false) :
    ∃ c b, (ch :: ' ' :: joinArgs xs) = c :: b ∧ isAlphaChar c = true ∧
      ∀ z ∈ b, isAlphaChar z = false := by
  refine ⟨ch, ' ' :: joinArgs xs, rfl, hch, ?_⟩
  intro z hz
  rcases List.mem_cons.mp hz with rfl | hz
  · rfl
  · rcases mem_joinArgs _ z hz with rfl | ⟨w, hw, hzw⟩
    · rfl
    · exact hx w hw z hzw

theorem tokenCore_shape (fmt : ℚ → List Char) (cp : BezierControlPoint ℚ)
    (hcp : ∀ q ∈ coords cp, ∀ c ∈ fmt q, isAlphaChar c = false) :
    ∃ c b, tokenCore fmt cp = c :: b ∧ isAlphaChar c = true ∧
      ∀ z ∈ b, isAlphaChar z = false := by
  have hx : ∀ z ∈ (coords cp).map fmt, ∀ c ∈ z, isAlphaChar c = false := by
    intro z hz
    obtain ⟨q, hq, rfl⟩ := List.mem_map.mp hz
    exact hcp q hq
  cases cp with
  | closePath => exact ⟨'Z', [], rfl, rfl, by simp⟩
  | moveTo x y => exact argToken_alpha_free 'M' rfl _ hx
  | lineTo x y => exact argToken_alpha_free 'L' rfl _ hx
  | quadraticCurveTo x y cx cy => exact argToken_alpha_free 'Q' rfl _ hx
  | cubicCurveTo x y c1x c1y c2x c2y => exact argToken_alpha_free 'C' rfl _ hx

theorem argToken_getLast_not_ws (ch : Char) (xs : List (List Char)) (hne : xs ≠ [])
    (hx : ∀ x ∈ xs, x ≠ [] ∧ ∀ c ∈ x, isSepChar c = false) :
    ∀ c, (ch :: ' ' :: joinArgs xs).getLast? = some c → isWSChar c = false := by
  intro c hc
  obtain ⟨x, xs', rfl⟩ := List.exists_cons_of_ne_nil hne
  have h1 : (ch :: ' ' :: joinArgs (x :: xs')) = [ch, ' '] ++ joinArgs (x :: xs') := rfl
  rw [h1, getLast?_append_right _ _ (joinArgs_ne_nil x xs' (hx x (by simp)).1)] at hc
  obtain ⟨xl, hmem, hlast⟩ :=
    joinArgs_getLast? (x :: xs') (by simp) (fun z hz => (hx z hz).1)
  rw [hlast] at hc
  exact isWSChar_of_isSepChar c
    ((hx xl hmem).2 c (List.mem_of_mem_getLast? (Option.mem_def.mpr hc)))

theorem tokenCore_getLast_not_ws (fmt : ℚ → List Char) (cp : BezierControlPoint ℚ)
    (hcp : ∀ q ∈ coords cp, fmt q ≠ [] ∧ ∀ c ∈ fmt q, isSepChar c = false) :
    ∀ c, (tokenCore fmt cp).getLast? = some c → isWSChar c = false := by
  have hx : ∀ z ∈ (coords cp).map fmt, z ≠ [] ∧ ∀ c ∈ z, isSepChar c = false := by
    intro z hz
    obtain ⟨q, hq, rfl⟩ := List.mem_map.mp hz
    exact hcp q hq
  cases cp with
  | closePath =>
    intro c hc
    simp [tokenCore] at hc
    subst hc
    rfl
  | moveTo x y => exact argToken_getLast_not_ws 'M' _ (by simp [coords]) hx
  | lineTo x y => exact argToken_getLast_not_ws 'L' _ (by simp [coords]) hx
  | quadraticCurveTo x y cx cy => exact argToken_getLast_not_ws 'Q' _ (by simp [coords]) hx
  | cubicCurveTo x y c1x c1y c2x c2y => exact argToken_getLast_not_ws 'C' _ (by simp [coords]) hx

theorem toSVGPath_decomp (fmt : ℚ → List Char) (p₁ : List (BezierControlPoint ℚ))
    (lastCp : BezierControlPoint ℚ)
    (hgood : ∀ q ∈ (p₁ ++ [lastCp]).flatMap coords, fmt q ≠ [] ∧
      ∀ c ∈ fmt q, isAlphaChar c = false ∧ isSepChar c = false) :
    toSVGPath fmt (p₁ ++ [lastCp]) =
      (p₁.map fun cp => tokenCore fmt cp ++ [' ']).flatten ++ tokenCore fmt lastCp := by
  have hlastgood : ∀ q ∈ coords lastCp, fmt q ≠ [] ∧
      ∀ c ∈ fmt q, isAlphaChar c = false ∧ isSepChar c = false := by
    intro q hq
    exact hgood q (List.mem_flatMap.mpr ⟨lastCp, by simp, hq⟩)
  obtain ⟨cl, bl, hleq, hcl, _⟩ := tokenCore_shape fmt lastCp
    (fun q hq c hc => ((hlastgood q hq).2 c hc).1)
  have harg : ((p₁ ++ [lastCp]).map fun cp => tokenCore fmt cp ++ [' ']).flatten =
      ((p₁.map fun cp => tokenCore fmt cp ++ [' ']).flatten ++ tokenCore fmt lastCp) ++ [' '] := by
    rw [List.map_append, List.join_append]
    simp [List.append_assoc]
  rw [toSVGPath, harg, jsTrim_append_ws _ [' '] (by intro c hc; simp at hc; subst hc; rfl)]
  apply jsTrim_eq_self
  · intro c hc
    cases p₁ with
    | nil =>
      simp only [List.map_nil, List.flatten_nil, List.nil_append] at hc
      rw [hleq] at hc
      simp at hc
      subst hc
      exact isWSChar_of_isAlphaChar _ hcl
    | cons cp₁ p₁' =>
      have hcp₁good : ∀ q ∈ coords cp₁, ∀ c ∈ fmt q, isAlphaChar c = false := by
        intro q hq c' hc'
        exact ((hgood q (List.mem_flatMap.mpr ⟨cp₁, by simp, hq⟩)).2 c' hc').1
      obtain ⟨c₁, b₁, heq₁, hc₁, _⟩ := tokenCore_shape fmt cp₁ hcp₁good
      have hne₁ : tokenCore fmt cp₁ ≠ [] := by rw [heq₁]; simp
      have hsplit : (((cp₁ :: p₁').map fun cp => tokenCore fmt cp ++ [' ']).flatten ++
          tokenCore fmt lastCp) = tokenCore fmt cp₁ ++
            (' ' :: ((p₁'.map fun cp => tokenCore fmt cp ++ [' ']).flatten ++
              tokenCore fmt lastCp)) := by
        rw [List.map_cons, List.join_cons]
        simp [List.append_assoc]
      rw [hsplit, head?_append_left _ _ hne₁, heq₁] at hc
      simp at hc
      subst hc
      exact isWSChar_of_isAlphaChar _ hc₁
  · intro c hc
    have hnel : tokenCore fmt lastCp ≠ [] := by rw [hleq]; simp
    rw [getLast?_append_right _ _ hnel] at hc
    exact tokenCore_getLast_not_ws fmt lastCp
      (fun q hq => ⟨(hlastgood q hq).1, fun c' hc' => ((hlastgood q hq).2 c' hc').2⟩) c hc

theorem parseCommands_eq_of_chunks (parseNum : List Char → Option ℚ) (d : List Char)
    (c : List Char) (cs : List (List Char)) (h : chunks d = c :: cs) :
    parseCommands parseNum d =
      (runChunks parseNum ⟨some 0, some 0, []⟩ (c :: cs)).map (·.controlPoints) := by
  unfold parseCommands
  rw [h]

theorem parseCommands_error_of_chunks_nil (parseNum : List Char → Option ℚ)
    (d : List Char) (h : chunks d = []) :
    parseCommands parseNum d = .error "Invalid SVG path data" := by
  unfold parseCommands
  rw [h]




/-- C1 (amended): for every nonempty control-point sequence whose
coordinates serialize to nonempty, letter-free and separator-free
tokens that the number parser inverts exactly (as JavaScript's
number-to-string interpolation and `Number` do for finite doubles
outside the exponent-notation range), `parseCommands` applied to
`toSVGPath` of the sequence returns exactly the same variant sequence
with the same numeric values.  The original claim's universal
quantification over all sequences fails only at the empty sequence
(see the counterexample). -/
theorem parseCommands_toSVGPath_roundtrip (fmt : ℚ → List Char)
    (parseNum : List Char → Option ℚ) (p : List (BezierControlPoint ℚ))
    (hp : p ≠ [])
    (hgood : ∀ q ∈ p.flatMap coords, goodFmt fmt parseNum q) :
    parseCommands parseNum (toSVGPath fmt p) = .ok (p.map (cpMap some)) := by
  rcases List.eq_nil_or_concat p with rfl | ⟨p₁, lastCp, rfl⟩
  · exact absurd rfl hp
  rw [List.concat_eq_append] at hgood ⊢
  have hgood' : ∀ q ∈ (p₁ ++ [lastCp]).flatMap coords, fmt q ≠ [] ∧
      ∀ c ∈ fmt q, isAlphaChar c = false ∧ isSepChar c = false :=
    fun q hq => ⟨(hgood q hq).2.1, (hgood q hq).2.2⟩
  rw [toSVGPath_decomp fmt p₁ lastCp hgood']
  have hshape : ∀ t ∈ (p₁.map fun cp => tokenCore fmt cp ++ [' ']) ++
      [tokenCore fmt lastCp],
      ∃ c b, t = c :: b ∧ isAlphaChar c = true ∧ ∀ z ∈ b, isAlphaChar z = false := by
    intro t ht
    rcases List.mem_append.mp ht with ht | ht
    · obtain ⟨cp, hcpmem, rfl⟩ := List.mem_map.mp ht
      obtain ⟨c, b, heq, hcal, hb⟩ := tokenCore_shape fmt cp
        (fun q hq c' hc' => ((hgood' q (List.mem_flatMap.mpr
          ⟨cp, List.mem_append_left _ hcpmem, hq⟩)).2 c' hc').1)
      refine ⟨c, b ++ [' '], by rw [heq, List.cons_append], hcal, ?_⟩
      intro z hz
      rcases List.mem_append.mp hz with hz | hz
      · exact hb z hz
      · simp at hz
        subst hz
        rfl
    · simp at ht
      subst ht
      exact tokenCore_shape fmt lastCp
        (fun q hq c' hc' => ((hgood' q (List.mem_flatMap.mpr ⟨lastCp, by simp, hq⟩)).2
          c' hc').1)
  have hchunks : chunks ((p₁.map fun cp => tokenCore fmt cp ++ [' ']).flatten ++
      tokenCore fmt lastCp) =
      (p₁.map fun cp => tokenCore fmt cp ++ [' ']) ++ [tokenCore fmt lastCp] := by
    have hjoin : (p₁.map fun cp => tokenCore fmt cp ++ [' ']).flatten ++
        tokenCore fmt lastCp =
        ((p₁.map fun cp => tokenCore fmt cp ++ [' ']) ++ [tokenCore fmt lastCp]).flatten := by
      rw [List.join_append]
      simp
    rw [hjoin]
    exact chunks_flatten _ hshape
  cases hcl : (p₁.map fun cp => tokenCore fmt cp ++ [' ']) ++ [tokenCore fmt lastCp] with
  | nil => exact absurd hcl (by simp)
  | cons c cs =>
    rw [parseCommands_eq_of_chunks parseNum _ c cs (by rw [hchunks, hcl]), ← hcl,
      runChunks_append, runChunks_tokens parseNum fmt p₁ _
        (fun q hq => hgood q (List.mem_flatMap.mpr
          (by
            obtain ⟨cp, hcpm, hqc⟩ := List.mem_flatMap.mp hq
            exact ⟨cp, List.mem_append_left _ hcpm, hqc⟩)))]
    have hlast := processChunk_tokenCore parseNum fmt
      (p₁.foldl stepState ⟨some 0, some 0, []⟩) lastCp [] (by simp)
      (fun q hq => hgood q (List.mem_flatMap.mpr ⟨lastCp, by simp, hq⟩))
    rw [List.append_nil] at hlast
    show (runChunks parseNum (p₁.foldl stepState ⟨some 0, some 0, []⟩)
      [tokenCore fmt lastCp]).map (·.controlPoints) = _
    rw [runChunks_cons, hlast]
    show Except.ok
      ((stepState (p₁.foldl stepState ⟨some 0, some 0, []⟩) lastCp).controlPoints) = _
    have hfold := foldl_stepState_controlPoints (p₁ ++ [lastCp]) ⟨some 0, some 0, []⟩
    rw [List.foldl_append] at hfold
    exact congrArg Except.ok (hfold.trans (by simp))

/-- C1 counterexample: the claimed round trip fails at the empty
control-point sequence — it serializes to the empty string, on which
the command regex matches nothing and `parseCommands` throws
`Invalid SVG path data` instead of returning the empty sequence. -/
theorem parseCommands_toSVGPath_empty_throws :
    parseCommands (fun _ => none) (toSVGPath (fun _ => ['0']) []) =
      .error "Invalid SVG path data" :=
  parseCommands_error_of_chunks_nil _ _ chunks_nil

/-- Witness: the round trip at the concrete path `M 1 2 Z` with a
concrete formatter/parser pair. -/
theorem parseCommands_toSVGPath_roundtrip_witness :
    parseCommands
        (fun s => if s = ['1'] then some 1 else if s = ['2'] then some 2 else none)
        (toSVGPath (fun q => if q = 1 then ['1'] else ['2'])
          [.moveTo 1 2, .closePath]) =
      .ok [.moveTo (some 1) (some 2), .closePath] :=
  parseCommands_toSVGPath_roundtrip _ _ _ (by simp)
    (by
      intro q hq
      have hq' : q = 1 ∨ q = 2 := by simpa [coords] using hq
      rcases hq' with rfl | rfl
      · refine ⟨by norm_num, by norm_num, ?_⟩
        intro c hc
        norm_num at hc
        subst hc
        exact ⟨rfl, rfl⟩
      · refine ⟨by norm_num; decide, by norm_num, ?_⟩
        intro c hc
        norm_num at hc
        subst hc
        exact ⟨rfl, rfl⟩)



end MicroCanvas
